import Mathlib

/-!
Budget proposal exporter.

A shallow embedding of `tool/src/proposalExporter.js`: the pagination loop of
`exportProposals`, the year buckets, `flattenProposal` and its formatting helpers,
and `pruneEmptyFields`.

Conventions of the embedding.

* A raw record is a JSON value (`Json`), as `response.json()` delivers it. Objects are
  association lists with pairwise distinct keys, read with `List.lookup`.
* JSON numbers are restricted to integers below `10 ^ 21` in absolute value (every
  GraphQL `Int` is one); for those `String(n)` is the plain decimal numeral. Strings are
  sequences of Unicode scalar values.
* A run-time value (`JsVal`) is `undefined`, a JSON value, or a built-in function that a
  property read reached through `Object.prototype`.
* A thrown exception is `Except.error`; the network and the file system are explicit: the
  server is a pair of response functions and every request, `mkdir` and `writeFile` is an
  `Event` appended to a trace. `console.log` lines are not recorded.
-/

namespace BudgetExport

/-! ## JavaScript values -/

/-- A JSON value as parsed from a GraphQL response body. -/
inductive Json where
  | null
  | bool (b : Bool)
  | num (n : Int)
  | str (s : String)
  | arr (items : List Json)
  | obj (fields : List (String × Json))

mutual
/-- Decidable equality of JSON values. -/
def Json.decEq : (a b : Json) → Decidable (a = b)
  | .null, .null => isTrue rfl
  | .bool a, .bool b =>
    if h : a = b then isTrue (by rw [h]) else isFalse (by intro e; cases e; exact h rfl)
  | .num a, .num b =>
    if h : a = b then isTrue (by rw [h]) else isFalse (by intro e; cases e; exact h rfl)
  | .str a, .str b =>
    if h : a = b then isTrue (by rw [h]) else isFalse (by intro e; cases e; exact h rfl)
  | .arr a, .arr b =>
    match Json.decEqList a b with
    | isTrue h => isTrue (by rw [h])
    | isFalse h => isFalse (by intro e; cases e; exact h rfl)
  | .obj a, .obj b =>
    match Json.decEqFields a b with
    | isTrue h => isTrue (by rw [h])
    | isFalse h => isFalse (by intro e; cases e; exact h rfl)
  | .null, .bool _ | .null, .num _ | .null, .str _ | .null, .arr _ | .null, .obj _
  | .bool _, .null | .bool _, .num _ | .bool _, .str _ | .bool _, .arr _ | .bool _, .obj _
  | .num _, .null | .num _, .bool _ | .num _, .str _ | .num _, .arr _ | .num _, .obj _
  | .str _, .null | .str _, .bool _ | .str _, .num _ | .str _, .arr _ | .str _, .obj _
  | .arr _, .null | .arr _, .bool _ | .arr _, .num _ | .arr _, .str _ | .arr _, .obj _
  | .obj _, .null | .obj _, .bool _ | .obj _, .num _ | .obj _, .str _ | .obj _, .arr _ =>
    isFalse (by intro e; cases e)
/-- Decidable equality of lists of JSON values. -/
def Json.decEqList : (as bs : List Json) → Decidable (as = bs)
  | [], [] => isTrue rfl
  | [], _ :: _ | _ :: _, [] => isFalse (by intro e; cases e)
  | a :: as, b :: bs =>
    match Json.decEq a b, Json.decEqList as bs with
    | isTrue h₁, isTrue h₂ => isTrue (by rw [h₁, h₂])
    | isFalse h, _ => isFalse (by intro e; cases e; exact h rfl)
    | _, isFalse h => isFalse (by intro e; cases e; exact h rfl)
/-- Decidable equality of JSON object bodies. -/
def Json.decEqFields : (as bs : List (String × Json)) → Decidable (as = bs)
  | [], [] => isTrue rfl
  | [], _ :: _ | _ :: _, [] => isFalse (by intro e; cases e)
  | (k, a) :: as, (l, b) :: bs =>
    if hk : k = l then
      match Json.decEq a b, Json.decEqFields as bs with
      | isTrue h₁, isTrue h₂ => isTrue (by rw [hk, h₁, h₂])
      | isFalse h, _ => isFalse (by intro e; cases e; exact h rfl)
      | _, isFalse h => isFalse (by intro e; cases e; exact h rfl)
    else isFalse (by intro e; cases e; exact hk rfl)
end

instance : DecidableEq Json := Json.decEq

instance instDecidableEqExcept {ε α : Type} [DecidableEq ε] [DecidableEq α] :
    DecidableEq (Except ε α)
  | .ok a, .ok b =>
    if h : a = b then isTrue (by rw [h]) else isFalse (by intro e; cases e; exact h rfl)
  | .error a, .error b =>
    if h : a = b then isTrue (by rw [h]) else isFalse (by intro e; cases e; exact h rfl)
  | .ok _, .error _ | .error _, .ok _ => isFalse (by intro e; cases e)

/-- A value the exporter can hold at run time. `builtin name` is the built-in function
called `name`, which only a read through `Object.prototype` can produce. -/
inductive JsVal where
  | undefined
  | json (j : Json)
  | builtin (name : String)
deriving DecidableEq

/-- A string value. -/
abbrev jsStr (s : String) : JsVal := .json (.str s)

/-- ToBoolean on JSON values. -/
def Json.truthy : Json → Bool
  | .null => false
  | .bool b => b
  | .num n => n != 0
  | .str s => s != ""
  | .arr _ => true
  | .obj _ => true

/-- ToBoolean: what `!v`, `v && _`, `v || _` and `Boolean(v)` test. -/
def JsVal.truthy : JsVal → Bool
  | .undefined => false
  | .json j => j.truthy
  | .builtin _ => true

/-- The test `v === undefined || v === null`. -/
def JsVal.nullish : JsVal → Bool
  | .undefined => true
  | .json .null => true
  | _ => false

/-- The operator `a || b`. -/
def jsOr (a b : JsVal) : JsVal := if a.truthy then a else b

/-- The operator `a ?? b`. -/
def jsCoalesce (a b : JsVal) : JsVal := if a.nullish then b else a

mutual
/-- ToString on JSON values, as `String(v)`, `Array.prototype.join` and the conversion of
a computed property key apply it. An array is its elements joined with a comma; a plain
object is `[object Object]` unless it has an own (hence non-callable) `toString`
entry, in which case the conversion throws a TypeError. -/
def Json.toStr : Json → Except String String
  | .null => .ok "null"
  | .bool b => .ok (if b then "true" else "false")
  | .num n => .ok (toString n)
  | .str s => .ok s
  | .arr items =>
    match Json.joinParts items with
    | .error e => .error e
    | .ok parts => .ok (String.intercalate "," parts)
  | .obj fields =>
    if (fields.lookup "toString").isSome then
      .error "TypeError: Cannot convert object to primitive value"
    else .ok "[object Object]"
/-- The element strings `Array.prototype.join` concatenates: `null` gives the empty
string, any other element its ToString. -/
def Json.joinParts : List Json → Except String (List String)
  | [] => .ok []
  | x :: xs =>
    match (match x with
      | .null => Except.ok ""
      | y => Json.toStr y) with
    | .error e => .error e
    | .ok s =>
      match Json.joinParts xs with
      | .error e => .error e
      | .ok rest => .ok (s :: rest)
end

/-- ToString on run-time values. -/
def JsVal.toStr : JsVal → Except String String
  | .undefined => .ok "undefined"
  | .json j => j.toStr
  | .builtin name => .ok ("function " ++ name ++ "() \x7b [native code] \x7d")

/-- Sequential `map` with a callback that may throw: the first exception aborts. -/
def mapE {α β : Type} (f : α → Except String β) : List α → Except String (List β)
  | [] => .ok []
  | x :: xs =>
    match f x with
    | .error e => .error e
    | .ok y =>
      match mapE f xs with
      | .error e => .error e
      | .ok ys => .ok (y :: ys)

/-- The call `xs.join(sep)` on an array of run-time values. -/
def joinValues (sep : String) (xs : List JsVal) : Except String String :=
  match mapE (fun v => if v.nullish then Except.ok "" else v.toStr) xs with
  | .error e => .error e
  | .ok parts => .ok (String.intercalate sep parts)

/-- The property names every plain object inherits from `Object.prototype`. -/
def objectPrototypeNames : List String :=
  ["constructor", "__defineGetter__", "__defineSetter__", "hasOwnProperty",
   "__lookupGetter__", "__lookupSetter__", "isPrototypeOf", "propertyIsEnumerable",
   "toString", "valueOf", "__proto__", "toLocaleString"]

/-- What a plain object yields for a key it does not own. `Object.prototype` itself, the
value of `__proto__`, is represented by the empty object: both are truthy objects that
print as `[object Object]`. -/
def inheritedProp (key : String) : JsVal :=
  if key = "__proto__" then .json (.obj [])
  else if key = "constructor" then .builtin "Object"
  else if key ∈ objectPrototypeNames then .builtin key
  else .undefined

/-- The number of UTF-16 code units of a string, its `length`. -/
def utf16Length (s : String) : Nat :=
  (s.toList.map (fun c => if c.val ≥ 0x10000 then 2 else 1)).sum

/-- The property read `j[key]` on a non-null JSON value. Exact for plain objects (own
entries, then `Object.prototype`) and for the `length` of arrays and strings. Not
modelled, and never read by the exporter, which walks arrays with `map`, `find` and
`forEach`: array indices, the code units of a string, and the members arrays and
primitives inherit from their prototypes. The keys the exporter reads by name (`id`,
`year`, `name`, `displayName`, `category`, ...) are none of these. -/
def Json.prop (j : Json) (key : String) : JsVal :=
  match j with
  | .obj fields =>
    match fields.lookup key with
    | some v => .json v
    | none => inheritedProp key
  | .arr items => if key = "length" then .json (.num items.length) else .undefined
  | .str s => if key = "length" then .json (.num (utf16Length s)) else .undefined
  | _ => .undefined

/-- The property read `v[key]` on a receiver already known not to be nullish. A built-in
function is never a receiver in the exporter; its own `length` and `name` are not
modelled. -/
def JsVal.prop : JsVal → String → JsVal
  | .json j, key => j.prop key
  | _, _ => .undefined

/-- The property read `v.key`, which throws on `undefined` and `null`. -/
def JsVal.get (v : JsVal) (key : String) : Except String JsVal :=
  if v.nullish then .error "TypeError: Cannot read properties of undefined or null"
  else .ok (v.prop key)

/-- The optional chain `v?.key`. -/
def JsVal.optGet (v : JsVal) (key : String) : JsVal :=
  if v.nullish then .undefined else v.prop key

/-- The computed read `table[key]`: the key is converted with ToString first. -/
def computedProp (table : Json) (key : JsVal) : Except String JsVal :=
  match key.toStr with
  | .error e => .error e
  | .ok k => .ok (table.prop k)

/-- WhiteSpace and LineTerminator code points, the characters `trim` strips. -/
def isJsWhitespace (c : Char) : Bool :=
  c.val = 0x09 || c.val = 0x0A || c.val = 0x0B || c.val = 0x0C || c.val = 0x0D ||
  c.val = 0x20 || c.val = 0xA0 || c.val = 0x1680 || (0x2000 ≤ c.val && c.val ≤ 0x200A) ||
  c.val = 0x2028 || c.val = 0x2029 || c.val = 0x202F || c.val = 0x205F ||
  c.val = 0x3000 || c.val = 0xFEFF

/-- The method `String.prototype.trim`. -/
def jsTrim (s : String) : String :=
  String.mk ((s.toList.dropWhile isJsWhitespace).reverse.dropWhile isJsWhitespace).reverse

/-! ## The flat row and the formatting helpers -/

/-- A plain object with run-time values, in property order. -/
abbrev Row := List (String × JsVal)

/-- The table `CSV_COLUMNS`: key and header of every CSV column. -/
def CSV_COLUMNS : List (String × String) :=
  [("proposal_id", "proposal_id"), ("proposal_types", "proposal_types"),
   ("result", "result"), ("reduction_amount", "reduction_amount"),
   ("freeze_amount", "freeze_amount"), ("reason", "reason"),
   ("description", "description"), ("budget_image_url", "budget_image_url"),
   ("historical_proposals", "historical_proposals"),
   ("historical_parent_proposal", "historical_parent_proposal"),
   ("merged_proposals", "merged_proposals"),
   ("merged_parent_proposal", "merged_parent_proposal"), ("year", "year"),
   ("government_name", "government_name"),
   ("government_category", "government_category"), ("meetings", "meetings"),
   ("proposers", "proposers"), ("co_signers", "co_signers"), ("budget_id", "budget_id"),
   ("budget_project_name", "budget_project_name"),
   ("budget_project_description", "budget_project_description"),
   ("budget_major_category", "budget_major_category"),
   ("budget_medium_category", "budget_medium_category"),
   ("budget_minor_category", "budget_minor_category"),
   ("budget_amount", "budget_amount"), ("last_synced_at", "last_synced_at")]

/-- The object literal `PROPOSAL_TYPE_LABELS`. -/
def PROPOSAL_TYPE_LABELS : Json :=
  .obj [("freeze", .str "凍結"), ("reduce", .str "減列"), ("other", .str "主決議")]

/-- The object literal `RESULT_LABELS`. -/
def RESULT_LABELS : Json :=
  .obj [("passed", .str "通過"), ("reserved", .str "保留"), ("withdrawn", .str "撤案")]

/-- The function `safeValue`: the value itself unless it is `undefined` or `null`. -/
def safeValue (value : JsVal) : JsVal :=
  if value.nullish then jsStr "" else value

/-- The function `normalizeNumber`: `String(value)` unless it is `undefined` or `null`. -/
def normalizeNumber (value : JsVal) : Except String JsVal :=
  if value.nullish then .ok (jsStr "")
  else
    match value.toStr with
    | .error e => .error e
    | .ok s => .ok (jsStr s)

/-- The callback `type => PROPOSAL_TYPE_LABELS[type] || type`. -/
def proposalTypeLabel (type : Json) : Except String JsVal :=
  match computedProp PROPOSAL_TYPE_LABELS (.json type) with
  | .error e => .error e
  | .ok label => .ok (jsOr label (.json type))

/-- The function `formatProposalTypes`. -/
def formatProposalTypes (types : JsVal) : Except String String :=
  match types with
  | .json (.arr items) =>
    if items.length = 0 then .ok ""
    else
      match mapE proposalTypeLabel items with
      | .error e => .error e
      | .ok labels => joinValues "、" (labels.filter JsVal.truthy)
  | _ => .ok ""

/-- The function `formatResultValue`. -/
def formatResultValue (value : JsVal) : Except String JsVal :=
  if !value.truthy then .ok (jsStr "")
  else
    match computedProp RESULT_LABELS value with
    | .error e => .error e
    | .ok label => .ok (jsOr label value)

/-- The filter `label => typeof label === "string" && label.trim() !== ""`. -/
def isNonBlankLabel (label : JsVal) : Bool :=
  match label with
  | .json (.str s) => jsTrim s != ""
  | _ => false

/-- The function `formatLabelList`. After the guard `!nodes || !nodes.length` a receiver
that is not an array has no callable `map`, and the call throws. -/
def formatLabelList (nodes : JsVal) (labelKey : String) : Except String String :=
  if !nodes.truthy || !(nodes.prop "length").truthy then .ok ""
  else
    match nodes with
    | .json (.arr items) =>
      joinValues "|"
        ((items.map (fun node => (JsVal.json node).optGet labelKey)).filter isNonBlankLabel)
    | _ => .error "TypeError: nodes.map is not a function"

/-- The callback `node => node.id || ""`, which reads `id` without a null check. -/
def relationIdOf (node : Json) : Except String JsVal :=
  match (JsVal.json node).get "id" with
  | .error e => .error e
  | .ok id => .ok (jsOr id (jsStr ""))

/-- The function `formatIdList`. -/
def formatIdList (nodes : JsVal) : Except String String :=
  if !nodes.truthy || !(nodes.prop "length").truthy then .ok ""
  else
    match nodes with
    | .json (.arr items) =>
      match mapE relationIdOf items with
      | .error e => .error e
      | .ok ids => joinValues "|" ids
    | _ => .error "TypeError: nodes.map is not a function"

/-- The function `formatSingleRelationId`. -/
def formatSingleRelationId (node : JsVal) : JsVal :=
  if !node.truthy then jsStr ""
  else
    match node with
    | .json (.arr items) =>
      match items.find? (fun item => item.truthy && (item.prop "id").truthy) with
      | some first => first.prop "id"
      | none => jsStr ""
    | _ => jsOr (node.prop "id") (jsStr "")

/-- The function `pruneEmptyFields`: the rest object without `last_synced_at`, then the
entries whose value is none of the empty string, `undefined`, `null`. -/
def pruneEmptyFields (row : Row) : Row :=
  (row.filter (fun entry => entry.1 != "last_synced_at")).filter
    (fun entry => entry.2 != jsStr "" && entry.2 != .undefined && entry.2 != .json .null)

/-- The conditional `proposal.year && proposal.year.year !== undefined &&
proposal.year.year !== null ? String(proposal.year.year) : fallback`, which both
`exportProposals` (fallback `"unknown"`) and `flattenProposal` (fallback `""`) evaluate. -/
def yearValueOf (proposal : JsVal) (fallback : String) : Except String String :=
  match proposal.get "year" with
  | .error e => .error e
  | .ok year =>
    if year.truthy && (year.prop "year" != .undefined && year.prop "year" != .json .null) then
      (year.prop "year").toStr
    else .ok fallback

/-- The function `flattenProposal`. The reads of `proposal` after the first cannot
throw, the first one (`proposal.year`) having succeeded. -/
def flattenProposal (proposal : JsVal) (lastSyncedAt : String) : Except String Row := do
  let yearValue ← yearValueOf proposal ""
  let proposalTypes ← formatProposalTypes (proposal.prop "proposalTypes")
  let result ← formatResultValue (proposal.prop "result")
  let reductionAmount ← normalizeNumber (proposal.prop "reductionAmount")
  let freezeAmount ← normalizeNumber (proposal.prop "freezeAmount")
  let historicalProposals ← formatIdList (proposal.prop "historicalProposals")
  let mergedProposals ← formatIdList (proposal.prop "mergedProposals")
  let meetings ← formatLabelList (proposal.prop "meetings") "displayName"
  let proposers ← formatLabelList (proposal.prop "proposers") "name"
  let coSigners ← formatLabelList (proposal.prop "coSigners") "name"
  let budgetAmount ← normalizeNumber
    (jsCoalesce ((proposal.prop "budget").optGet "budgetAmount") (proposal.prop "budgetAmount"))
  pure
    [("proposal_id", safeValue (proposal.prop "id")),
     ("proposal_types", jsStr proposalTypes),
     ("result", result),
     ("reduction_amount", reductionAmount),
     ("freeze_amount", freezeAmount),
     ("reason", safeValue (proposal.prop "reason")),
     ("description", safeValue (proposal.prop "description")),
     ("budget_image_url", safeValue (proposal.prop "budgetImageUrl")),
     ("historical_proposals", jsStr historicalProposals),
     ("historical_parent_proposal",
       formatSingleRelationId (proposal.prop "historicalParentProposals")),
     ("merged_proposals", jsStr mergedProposals),
     ("merged_parent_proposal", formatSingleRelationId (proposal.prop "mergedParentProposals")),
     ("year", jsStr yearValue),
     ("government_name", safeValue ((proposal.prop "government").optGet "name")),
     ("government_category", safeValue ((proposal.prop "government").optGet "category")),
     ("meetings", jsStr meetings),
     ("proposers", jsStr proposers),
     ("co_signers", jsStr coSigners),
     ("budget_id", safeValue ((proposal.prop "budget").optGet "id")),
     ("budget_project_name",
       safeValue (jsOr ((proposal.prop "budget").optGet "projectName")
         (proposal.prop "budgetProjectName"))),
     ("budget_project_description",
       safeValue ((proposal.prop "budget").optGet "projectDescription")),
     ("budget_major_category",
       safeValue (jsOr ((proposal.prop "budget").optGet "majorCategory")
         (proposal.prop "budgetMajorCategory"))),
     ("budget_medium_category",
       safeValue (jsOr ((proposal.prop "budget").optGet "mediumCategory")
         (proposal.prop "budgetMediumCategory"))),
     ("budget_minor_category",
       safeValue (jsOr ((proposal.prop "budget").optGet "minorCategory")
         (proposal.prop "budgetMinorCategory"))),
     ("budget_amount", budgetAmount),
     ("last_synced_at", jsStr lastSyncedAt)]

/-! ## Year buckets, the pagination loop and the writer -/

/-- The object `CONFIG` of `config.js`, as far as the exporter reads it. -/
structure Config where
  batchSize : Nat
  maxRecords : Nat
  outputRoot : String
  metadataFileName : String
  proposalWhere : Json
deriving DecidableEq

/-- The remote service as the exporter sees it: what `fetchProposalCount()` and
`fetchProposalBatch(skip)` (with `take = CONFIG.batchSize`) resolve to, or the error
they reject with. Every request of one run has its own `skip`, so a function of
`take` and `skip` covers any sequence of responses. -/
structure Server where
  count : Except String Int
  page : (take : Nat) → (skip : Nat) → Except String (List Json)

/-- A value of the map `buckets`. -/
structure Bucket where
  yearValue : String
  yearId : JsVal
  rows : List Row
deriving DecidableEq

/-- The `Map` named `buckets`, in insertion order. -/
abbrev Buckets := List (String × Bucket)

/-- The document handed to `writeFile`, before `stringify` or `JSON.stringify`. -/
inductive FileContent where
  | csv (columns : List (String × String)) (rows : List Row)
  | bucketJson (generatedAt : String) (recordCount : Nat) (year : String)
      (proposals : List Row)
  | bucketMetadata (year : String) (yearId : JsVal) (generatedAt : String)
      (recordCount : Nat)
  | rootMetadata (generatedAt : String) (totalYears totalRecords maxRecords batchSize : Nat)
      (filter : Json)
deriving DecidableEq

/-- An effect of a run on the network or the file system. -/
inductive Event where
  | countRequest
  | pageRequest (take skip : Nat)
  | mkdir (dir : String)
  | writeFile (dir name : String) (content : FileContent)
deriving DecidableEq

/-- Whether an event is a `writeFile`. -/
def Event.isWrite : Event → Bool
  | .writeFile _ _ _ => true
  | _ => false

/-- Whether an event is a request to the server. -/
def Event.isRequest : Event → Bool
  | .countRequest => true
  | .pageRequest _ _ => true
  | _ => false

/-- The value `exportProposals` resolves to. -/
structure Summary where
  lastSyncedAt : String
  totalYears : Nat
  totalRecords : Nat
deriving DecidableEq

/-- The function `ensureYearBucket`, as a map update: a bucket is created for a key the
map does not have. -/
def ensureYearBucket (map : Buckets) (key : String) (yearValue : String) (yearId : JsVal) :
    Buckets :=
  if (map.lookup key).isSome then map
  else map ++ [(key, { yearValue := yearValue, yearId := yearId, rows := [] })]

/-- The statement `bucket.rows.push(row)` on the bucket stored under `key`. -/
def pushRow (map : Buckets) (key : String) (row : Row) : Buckets :=
  map.map (fun entry =>
    if entry.1 = key then (entry.1, { entry.2 with rows := entry.2.rows ++ [row] }) else entry)

/-- The callback of `usable.forEach`: one record into its bucket. -/
def processProposal (lastSyncedAt : String) (map : Buckets) (proposal : Json) :
    Except String Buckets :=
  match yearValueOf (.json proposal) "unknown" with
  | .error e => .error e
  | .ok yearValue =>
    let yearId := jsOr (((JsVal.json proposal).prop "year").optGet "id") (jsStr "")
    match flattenProposal (.json proposal) lastSyncedAt with
    | .error e => .error e
    | .ok row => .ok (pushRow (ensureYearBucket map yearValue yearValue yearId) yearValue row)

/-- The call `usable.forEach(...)`. -/
def processAll (lastSyncedAt : String) : Buckets → List Json → Except String Buckets
  | map, [] => .ok map
  | map, proposal :: rest =>
    match processProposal lastSyncedAt map proposal with
    | .error e => .error e
    | .ok map1 => processAll lastSyncedAt map1 rest

/-- The local variables of the fetch loop. -/
structure LoopState where
  buckets : Buckets
  skip : Nat
  processed : Nat
  remaining : Nat
deriving DecidableEq

/-- The loop `while (remaining > 0)` of `exportProposals`, with the trace of events so
far. The first argument bounds the number of iterations; `none` means the bound was
reached with `remaining > 0`. -/
def fetchLoop (cfg : Config) (server : Server) (lastSyncedAt : String) :
    Nat → LoopState → List Event → Option (Except String LoopState × List Event)
  | 0, s, trace => if s.remaining > 0 then none else some (.ok s, trace)
  | fuel + 1, s, trace =>
    if s.remaining > 0 then
      match server.page cfg.batchSize s.skip with
      | .error e => some (.error e, trace ++ [.pageRequest cfg.batchSize s.skip])
      | .ok batch =>
        if batch.length = 0 then some (.ok s, trace ++ [.pageRequest cfg.batchSize s.skip])
        else
          match processAll lastSyncedAt s.buckets
              (batch.take (min batch.length s.remaining)) with
          | .error e => some (.error e, trace ++ [.pageRequest cfg.batchSize s.skip])
          | .ok buckets =>
            if batch.length < cfg.batchSize then
              some (.ok
                { buckets := buckets
                  skip := s.skip + batch.length
                  processed := s.processed + (batch.take (min batch.length s.remaining)).length
                  remaining := s.remaining - (batch.take (min batch.length s.remaining)).length },
                trace ++ [.pageRequest cfg.batchSize s.skip])
            else
              fetchLoop cfg server lastSyncedAt fuel
                { buckets := buckets
                  skip := s.skip + batch.length
                  processed := s.processed + (batch.take (min batch.length s.remaining)).length
                  remaining := s.remaining - (batch.take (min batch.length s.remaining)).length }
                (trace ++ [.pageRequest cfg.batchSize s.skip])
    else some (.ok s, trace)

/-- The three `writeFile` calls of one bucket. -/
def bucketWrites (cfg : Config) (lastSyncedAt : String) (bucket : Bucket) : List Event :=
  let safeYear := if bucket.yearValue != "" then bucket.yearValue else "unknown"
  [.writeFile cfg.outputRoot ("proposals_year_" ++ safeYear ++ ".csv")
      (.csv CSV_COLUMNS bucket.rows),
   .writeFile cfg.outputRoot ("proposals_year_" ++ safeYear ++ ".json")
      (.bucketJson lastSyncedAt (bucket.rows.map pruneEmptyFields).length bucket.yearValue
        (bucket.rows.map pruneEmptyFields)),
   .writeFile cfg.outputRoot ("metadata_year_" ++ safeYear ++ ".json")
      (.bucketMetadata bucket.yearValue bucket.yearId lastSyncedAt bucket.rows.length)]

/-- The loop `for (const [, bucket] of buckets.entries())`: the writes it performs and the
final value of `cumulative`. -/
def writeBuckets (cfg : Config) (lastSyncedAt : String) :
    List (String × Bucket) → Nat → List Event × Nat
  | [], cumulative => ([], cumulative)
  | (_, bucket) :: rest, cumulative =>
    let tail := writeBuckets cfg lastSyncedAt rest (cumulative + bucket.rows.length)
    (bucketWrites cfg lastSyncedAt bucket ++ tail.1, tail.2)

/-- The function `writeRootMetadata`. -/
def writeRootMetadata (cfg : Config) (lastSyncedAt : String) (totalYears totalRecords
    limitApplied : Nat) : List Event :=
  [.mkdir cfg.outputRoot,
   .writeFile cfg.outputRoot cfg.metadataFileName
     (.rootMetadata lastSyncedAt totalYears totalRecords limitApplied cfg.batchSize
       cfg.proposalWhere)]

/-- The loop state `exportProposals` starts from. -/
def initialState (cfg : Config) : LoopState :=
  { buckets := [], skip := 0, processed := 0, remaining := cfg.maxRecords }

/-- The function `exportProposals`, run against a server at the time `lastSyncedAt`: its
outcome (the summary, or the error it rejects with) and the trace of its effects. The
loop is given `CONFIG.maxRecords` iterations. Calls into the file system succeed. -/
def exportProposals (cfg : Config) (server : Server) (lastSyncedAt : String) :
    Option (Except String Summary × List Event) :=
  match server.count with
  | .error e => some (.error e, [.countRequest])
  | .ok _ =>
    match fetchLoop cfg server lastSyncedAt cfg.maxRecords (initialState cfg)
        [.countRequest, .mkdir cfg.outputRoot] with
    | none => none
    | some (.error e, trace) => some (.error e, trace)
    | some (.ok s, trace) =>
      if s.buckets.length = 0 then
        some (.ok { lastSyncedAt := lastSyncedAt, totalYears := 0, totalRecords := 0 }, trace)
      else
        let written := writeBuckets cfg lastSyncedAt s.buckets 0
        some (.ok { lastSyncedAt := lastSyncedAt
                    totalYears := s.buckets.length
                    totalRecords := written.2 },
          trace ++ written.1 ++
            writeRootMetadata cfg lastSyncedAt s.buckets.length written.2 cfg.maxRecords)

/-- The server of the pagination contract: a fixed list of records, of which a page
request returns the slice from `skip` of length at most `take`. -/
def sliceServer (records : List Json) : Server :=
  { count := .ok records.length
    page := fun take skip => .ok ((records.drop skip).take take) }

/-- The rows of the bucket stored under a key, none when there is no such bucket. -/
def bucketRows (map : Buckets) (key : String) : List Row :=
  match map.lookup key with
  | some bucket => bucket.rows
  | none => []

/-- The number of rows held by all buckets together. -/
def totalRows (map : Buckets) : Nat :=
  (map.map (fun entry => entry.2.rows.length)).sum

/-- The offsets of the page requests in a trace, in order. -/
def pageOffsets : List Event → List Nat
  | [] => []
  | .pageRequest _ skip :: rest => skip :: pageOffsets rest
  | _ :: rest => pageOffsets rest

/-! ## Reference definitions, written from the specification's wording -/

/-- The type label table of the specification: freeze, reduce and other have a label,
any other tag is kept verbatim. -/
def specTypeLabel (tag : String) : String :=
  if tag = "freeze" then "凍結"
  else if tag = "reduce" then "減列"
  else if tag = "other" then "主決議"
  else tag

/-- The proposal type field as the specification words it: every tag replaced by its
label or kept verbatim, joined in input order. -/
def specProposalTypes (tags : List String) : String :=
  String.intercalate "、" (tags.map specTypeLabel)

/-- A relation node that is not null and has a non-empty id; an id is empty when it is
missing, `null`, the empty string, or another falsy value. -/
def hasNonEmptyId (node : Json) : Bool :=
  node != .null && (node.prop "id").truthy

/-- The parent relation field as the specification words it: for a list the id of the
first element that is not null and has a non-empty id, the empty string for a missing or
null value, and for a single node its id, or the empty string when that is missing or
empty. -/
def specSingleRelationId : JsVal → JsVal
  | .undefined => jsStr ""
  | .json .null => jsStr ""
  | .json (.arr items) =>
    match items.find? hasNonEmptyId with
    | some first => first.prop "id"
    | none => jsStr ""
  | node => if (node.prop "id").truthy then node.prop "id" else jsStr ""

/-- A record with every kind of attribute present, for the worked examples. -/
def sampleProposal : Json :=
  .obj
    [("id", .str "p-17"), ("proposalTypes", .arr [.str "freeze", .str "reduce"]),
     ("result", .str "passed"), ("reductionAmount", .num 1200), ("freezeAmount", .num 0),
     ("reason", .str "r"), ("budgetProjectName", .str "road works"),
     ("budgetAmount", .num 7),
     ("year", .obj [("id", .str "y-3"), ("year", .num 2024)]),
     ("government", .obj [("id", .str "g-1"), ("name", .str "city")]),
     ("meetings", .arr [.obj [("id", .str "m-1"), ("displayName", .str "first reading")]]),
     ("proposers", .arr [.obj [("name", .str "A")], .obj [("name", .str " ")],
        .obj [("name", .str "B")]]),
     ("budget", .obj [("id", .str "b-9"), ("projectName", .str ""), ("budgetAmount", .num 0)]),
     ("historicalProposals", .arr [.obj [("id", .str "p-3")], .obj [("id", .str "p-4")]]),
     ("mergedParentProposals", .arr [.obj [("id", .str "")], .obj [("id", .str "p-1")]])]

/-- The row `flattenProposal` makes of `sampleProposal`. -/
def sampleRow (lastSyncedAt : String) : Row :=
  [("proposal_id", jsStr "p-17"), ("proposal_types", jsStr "凍結、減列"),
   ("result", jsStr "通過"), ("reduction_amount", jsStr "1200"),
   ("freeze_amount", jsStr "0"), ("reason", jsStr "r"), ("description", jsStr ""),
   ("budget_image_url", jsStr ""), ("historical_proposals", jsStr "p-3|p-4"),
   ("historical_parent_proposal", jsStr ""), ("merged_proposals", jsStr ""),
   ("merged_parent_proposal", jsStr "p-1"), ("year", jsStr "2024"),
   ("government_name", jsStr "city"), ("government_category", jsStr ""),
   ("meetings", jsStr "first reading"), ("proposers", jsStr "A|B"),
   ("co_signers", jsStr ""), ("budget_id", jsStr "b-9"),
   ("budget_project_name", jsStr "road works"), ("budget_project_description", jsStr ""),
   ("budget_major_category", jsStr ""), ("budget_medium_category", jsStr ""),
   ("budget_minor_category", jsStr ""), ("budget_amount", jsStr "0"),
   ("last_synced_at", jsStr lastSyncedAt)]

/-- The optional chain `proposal?.k1?.k2 ...` along a path of keys. -/
def readPath (proposal : JsVal) (path : List String) : JsVal :=
  path.foldl JsVal.optGet proposal

/-- Whether `flattenProposal` returns a row for a record, rather than throwing. -/
def flattens (lastSyncedAt : String) (record : Json) : Bool :=
  match flattenProposal (.json record) lastSyncedAt with
  | .ok _ => true
  | .error _ => false

/-- The keys of the bucket map, in insertion order. -/
def bucketKeys (map : Buckets) : List String :=
  map.map Prod.fst

/-- A record with an identifier and a nested year, for the worked examples. -/
def yearRecord (id : String) (year : Int) : Json :=
  .obj [("id", .str id), ("year", .obj [("id", .str "y"), ("year", .num year)])]

/-- Five records over two years, one of them without a year. -/
def sampleRecords : List Json :=
  [yearRecord "p1" 2023, yearRecord "p2" 2024, .obj [("id", .str "p3")],
   yearRecord "p4" 2023, yearRecord "p5" 2024]

/-- A configuration with the given batch size and record cap. -/
def sampleConfig (batchSize maxRecords : Nat) : Config :=
  { batchSize := batchSize
    maxRecords := maxRecords
    outputRoot := "out"
    metadataFileName := "proposals_metadata.json"
    proposalWhere := .obj [("publishStatus", .obj [("equals", .str "published")])] }

/-- The four text columns `flattenProposal` fills with `budget?.x || proposal.y`: the
column, the attribute of the nested budget object and the proposal-level attribute. -/
def budgetTextFallbacks : List (String × String × String) :=
  [("budget_project_name", "projectName", "budgetProjectName"),
   ("budget_major_category", "majorCategory", "budgetMajorCategory"),
   ("budget_medium_category", "mediumCategory", "budgetMediumCategory"),
   ("budget_minor_category", "minorCategory", "budgetMinorCategory")]

/-- Whether `pruneEmptyFields` keeps an entry: its key is not `last_synced_at` and its
value is none of the empty string, `undefined` and `null`. -/
def keptByPrune (entry : String × JsVal) : Bool :=
  entry.1 != "last_synced_at" &&
    (entry.2 != jsStr "" && entry.2 != .undefined && entry.2 != .json .null)

/-- A node of a label list as the query delivers it: an object, or `null` (`none`). -/
def nodeJson : Option (List (String × Json)) → Json
  | none => .null
  | some fields => .obj fields

/-- The label the specification keeps for a node: the entry under the label key when it
is a string that is not blank after trimming; nothing for a `null` node, a missing label,
a label that is not a string, and a label of whitespace only. -/
def specLabelOf (labelKey : String) : Option (List (String × Json)) → Option String
  | none => none
  | some fields =>
    match fields.lookup labelKey with
    | some (.str s) => if jsTrim s = "" then none else some s
    | _ => none

/-- The label list as the specification words it: the kept labels, in input order, joined
with the bar. -/
def specLabelList (nodes : List (Option (List (String × Json)))) (labelKey : String) :
    String :=
  String.intercalate "|" (nodes.filterMap (specLabelOf labelKey))

/-- A JSON value read as a node: an object is itself, anything else has no labels. -/
def jsonNode : Json → Option (List (String × Json))
  | .obj fields => some fields
  | _ => none

/-- The segment a relation node contributes, as the specification words it: its id (in
string form), or the empty segment when the id is missing or empty. -/
def specIdSegment (node : Json) : Except String String :=
  if (node.prop "id").truthy then (node.prop "id").toStr else .ok ""

/-- A node whose id is not an array or an object: a string, a number, a boolean, `null`,
or missing. -/
def scalarId (node : Json) : Bool :=
  match node.prop "id" with
  | .json (.arr _) => false
  | .json (.obj _) => false
  | _ => true

/-- The number of bar characters of a string. -/
def countBars (s : String) : Nat :=
  s.toList.count '|'

/-! ## Configuration (`config.js`) -/

/-- The records the fetch loop consumes, in order: it walks the pages as the loop does
(first argument: the bound on iterations) and collects the usable part of each page. -/
def consumedRecords (cfg : Config) (server : Server) : Nat → Nat → Nat → List Json
  | 0, _, _ => []
  | fuel + 1, skip, remaining =>
    if remaining > 0 then
      match server.page cfg.batchSize skip with
      | .error _ => []
      | .ok batch =>
        if batch.length = 0 then []
        else if batch.length < cfg.batchSize then batch.take (min batch.length remaining)
        else
          batch.take (min batch.length remaining) ++
            consumedRecords cfg server fuel (skip + batch.length)
              (remaining - (batch.take (min batch.length remaining)).length)
    else []

/-- The condition `proposal.year && proposal.year.year !== undefined &&
proposal.year.year !== null`: the record has a nested year value. -/
def hasYearValue (proposal : JsVal) : Bool :=
  (proposal.prop "year").truthy &&
    ((proposal.prop "year").prop "year" != .undefined &&
      (proposal.prop "year").prop "year" != .json .null)

/-- The year keys of the records for which the key can be computed, in order. -/
def yearKeys (records : List Json) : List String :=
  records.filterMap (fun record =>
    match yearValueOf (.json record) "unknown" with
    | .ok key => some key
    | .error _ => none)

/-- What holds of every bucket of a run: it stores its key as `yearValue`, it has a row,
and each of its rows has the key as its year field, or the empty year field in the
bucket `unknown`. -/
def BucketsKeyed (map : Buckets) : Prop :=
  ∀ entry ∈ map, entry.2.yearValue = entry.1 ∧ entry.2.rows ≠ [] ∧
    ∀ row ∈ entry.2.rows, row.lookup "year" = some (jsStr entry.1) ∨
      (entry.1 = "unknown" ∧ row.lookup "year" = some (jsStr ""))

/-- The summary of a run that returned one. -/
def summaryOf (outcome : Option (Except String Summary × List Event)) : Option Summary :=
  match outcome with
  | some (.ok summary, _) => some summary
  | _ => none

end BudgetExport

/-! ## Auxiliary lemmas -/

namespace BudgetExport

theorem bind_eq_ok {α β : Type} {x : Except String α} {f : α → Except String β} {b : β} :
    (x >>= f) = .ok b ↔ ∃ a, x = .ok a ∧ f a = .ok b := by
  cases x with
  | error e => simp [bind, Except.bind]
  | ok a => simp [bind, Except.bind]

theorem flattenProposal_shape {proposal : JsVal} {lastSyncedAt : String} {row : Row}
    (h : flattenProposal proposal lastSyncedAt = .ok row) :
    ∃ yearValue proposalTypes result reductionAmount freezeAmount historicalProposals
      mergedProposals meetings proposers coSigners budgetAmount,
      yearValueOf proposal "" = .ok yearValue ∧
      formatProposalTypes (proposal.prop "proposalTypes") = .ok proposalTypes ∧
      formatResultValue (proposal.prop "result") = .ok result ∧
      normalizeNumber (proposal.prop "reductionAmount") = .ok reductionAmount ∧
      normalizeNumber (proposal.prop "freezeAmount") = .ok freezeAmount ∧
      formatIdList (proposal.prop "historicalProposals") = .ok historicalProposals ∧
      formatIdList (proposal.prop "mergedProposals") = .ok mergedProposals ∧
      formatLabelList (proposal.prop "meetings") "displayName" = .ok meetings ∧
      formatLabelList (proposal.prop "proposers") "name" = .ok proposers ∧
      formatLabelList (proposal.prop "coSigners") "name" = .ok coSigners ∧
      normalizeNumber
        (jsCoalesce ((proposal.prop "budget").optGet "budgetAmount")
          (proposal.prop "budgetAmount")) = .ok budgetAmount ∧
      row =
        [("proposal_id", safeValue (proposal.prop "id")),
         ("proposal_types", jsStr proposalTypes),
         ("result", result),
         ("reduction_amount", reductionAmount),
         ("freeze_amount", freezeAmount),
         ("reason", safeValue (proposal.prop "reason")),
         ("description", safeValue (proposal.prop "description")),
         ("budget_image_url", safeValue (proposal.prop "budgetImageUrl")),
         ("historical_proposals", jsStr historicalProposals),
         ("historical_parent_proposal",
           formatSingleRelationId (proposal.prop "historicalParentProposals")),
         ("merged_proposals", jsStr mergedProposals),
         ("merged_parent_proposal",
           formatSingleRelationId (proposal.prop "mergedParentProposals")),
         ("year", jsStr yearValue),
         ("government_name", safeValue ((proposal.prop "government").optGet "name")),
         ("government_category", safeValue ((proposal.prop "government").optGet "category")),
         ("meetings", jsStr meetings),
         ("proposers", jsStr proposers),
         ("co_signers", jsStr coSigners),
         ("budget_id", safeValue ((proposal.prop "budget").optGet "id")),
         ("budget_project_name",
           safeValue (jsOr ((proposal.prop "budget").optGet "projectName")
             (proposal.prop "budgetProjectName"))),
         ("budget_project_description",
           safeValue ((proposal.prop "budget").optGet "projectDescription")),
         ("budget_major_category",
           safeValue (jsOr ((proposal.prop "budget").optGet "majorCategory")
             (proposal.prop "budgetMajorCategory"))),
         ("budget_medium_category",
           safeValue (jsOr ((proposal.prop "budget").optGet "mediumCategory")
             (proposal.prop "budgetMediumCategory"))),
         ("budget_minor_category",
           safeValue (jsOr ((proposal.prop "budget").optGet "minorCategory")
             (proposal.prop "budgetMinorCategory"))),
         ("budget_amount", budgetAmount),
         ("last_synced_at", jsStr lastSyncedAt)] := by
  unfold flattenProposal at h
  simp only [bind_eq_ok] at h
  obtain ⟨a1, h1, a2, h2, a3, h3, a4, h4, a5, h5, a6, h6, a7, h7, a8, h8, a9, h9, a10, h10,
    a11, h11, h12⟩ := h
  refine ⟨a1, a2, a3, a4, a5, a6, a7, a8, a9, a10, a11, h1, h2, h3, h4, h5, h6, h7, h8, h9,
    h10, h11, ?_⟩
  simp only [pure, Except.pure, Except.ok.injEq] at h12
  exact h12.symm

theorem lookup_of_mem_of_nodup (row : Row) (k : String) (v : JsVal)
    (hnodup : (row.map Prod.fst).Nodup) (hmem : (k, v) ∈ row) : row.lookup k = some v := by
  induction row with
  | nil => cases hmem
  | cons entry rest ih =>
    obtain ⟨k0, v0⟩ := entry
    simp only [List.map_cons, List.nodup_cons] at hnodup
    rcases List.mem_cons.1 hmem with h | h
    · cases h
      simp [List.lookup]
    · have hne : k ≠ k0 := by
        intro e
        subst e
        exact hnodup.1 (List.mem_map_of_mem Prod.fst h)
      simp only [List.lookup, beq_eq_false_iff_ne.2 hne]
      exact ih hnodup.2 h

theorem prop_id_truthy_imp (item : Json) (h : (item.prop "id").truthy = true) : item.truthy = true := by
  cases item <;> simp_all [Json.prop, Json.truthy, JsVal.truthy]

theorem formatSingleRelationId_eq_spec (node : JsVal) : formatSingleRelationId node = specSingleRelationId node := by
  have hpred : (fun item : Json => item.truthy && (item.prop "id").truthy) = hasNonEmptyId := by
    funext item
    cases item <;> simp [hasNonEmptyId, Json.truthy, Json.prop, JsVal.truthy]
  cases node with
  | undefined => rfl
  | builtin name => rfl
  | json j =>
    cases j with
    | null => rfl
    | bool b => cases b <;> rfl
    | num n =>
      by_cases hn : n = 0
      · subst hn; rfl
      · simp [formatSingleRelationId, specSingleRelationId, JsVal.truthy, Json.truthy, hn, jsOr, JsVal.prop, Json.prop]
    | str s =>
      by_cases hs : s = ""
      · subst hs; rfl
      · simp [formatSingleRelationId, specSingleRelationId, JsVal.truthy, Json.truthy, hs, jsOr, JsVal.prop, Json.prop]
    | arr items =>
      have hcode : formatSingleRelationId (.json (.arr items)) =
          match items.find? (fun item => item.truthy && (item.prop "id").truthy) with
          | some first => first.prop "id"
          | none => jsStr "" := rfl
      rw [hcode, hpred]
      rfl
    | obj fields =>
      simp [formatSingleRelationId, specSingleRelationId, JsVal.truthy, Json.truthy, jsOr]

theorem mapE_map_ok {α β γ : Type} (g : α → β) (f : β → Except String γ) (h : α → γ)
    (xs : List α) (hf : ∀ x ∈ xs, f (g x) = .ok (h x)) :
    mapE f (xs.map g) = .ok (xs.map h) := by
  induction xs with
  | nil => rfl
  | cons x xs ih =>
    have hx := hf x (List.mem_cons_self _ _)
    have hxs := ih (fun y hy => hf y (List.mem_cons_of_mem _ hy))
    simp only [List.map_cons, mapE, hx, hxs]

theorem joinValues_strings (sep : String) (parts : List String) :
    joinValues sep (parts.map jsStr) = .ok (String.intercalate sep parts) := by
  unfold joinValues
  rw [mapE_map_ok jsStr _ id parts (fun s _ => by simp [JsVal.nullish, JsVal.toStr, Json.toStr])]
  simp

theorem inheritedProp_of_not_mem {key : String} (h : key ∉ objectPrototypeNames) :
    inheritedProp key = .undefined := by
  unfold inheritedProp
  have h1 : key ≠ "__proto__" := fun e => h (by rw [e]; decide)
  have h2 : key ≠ "constructor" := fun e => h (by rw [e]; decide)
  simp [h1, h2, h]

theorem proposalTypeLabel_plain (tag : String) (h : tag ∉ objectPrototypeNames) :
    proposalTypeLabel (.str tag) = .ok (jsStr (specTypeLabel tag)) := by
  unfold proposalTypeLabel computedProp specTypeLabel
  simp only [JsVal.toStr, Json.toStr, PROPOSAL_TYPE_LABELS, Json.prop]
  by_cases h1 : tag = "freeze"
  · subst h1; rfl
  by_cases h2 : tag = "reduce"
  · subst h2; rfl
  by_cases h3 : tag = "other"
  · subst h3; rfl
  have hl : List.lookup tag [("freeze", Json.str "凍結"), ("reduce", Json.str "減列"),
      ("other", Json.str "主決議")] = none := by
    simp [List.lookup, beq_eq_false_iff_ne.2 h1, beq_eq_false_iff_ne.2 h2,
      beq_eq_false_iff_ne.2 h3]
  by_cases h4 : tag = ""
  · subst h4; rfl
  simp [hl, inheritedProp_of_not_mem h, jsOr, JsVal.truthy, h1, h2, h3, Json.truthy, h4]

theorem specTypeLabel_eq_empty (tag : String) : specTypeLabel tag = "" ↔ tag = "" := by
  unfold specTypeLabel
  constructor
  · intro h
    split_ifs at h with h1 h2 h3
    · exact absurd h (by decide)
    · exact absurd h (by decide)
    · exact absurd h (by decide)
    · exact h
  · intro h
    subst h
    rfl

theorem filter_truthy_labels (tags : List String) :
    (tags.map (fun t => jsStr (specTypeLabel t))).filter JsVal.truthy =
      ((tags.filter (fun t => t ≠ "")).map specTypeLabel).map jsStr := by
  induction tags with
  | nil => rfl
  | cons t ts ih =>
    have htr : (jsStr (specTypeLabel t)).truthy = decide (t ≠ "") := by
      by_cases ht : t = ""
      · subst ht; rfl
      · have hl : specTypeLabel t ≠ "" := fun e => ht ((specTypeLabel_eq_empty t).1 e)
        simp [JsVal.truthy, Json.truthy, ht, hl]
    rw [List.map_cons, List.filter_cons, List.filter_cons, htr, ih]
    by_cases ht : t = ""
    · simp [ht]
    · simp [ht]

theorem notNullish_of_yearValueOf {proposal : JsVal} {fallback year : String}
    (h : yearValueOf proposal fallback = .ok year) : proposal.nullish = false := by
  unfold yearValueOf JsVal.get at h
  cases hn : proposal.nullish
  · rfl
  · simp [hn] at h

theorem readPath_one {proposal : JsVal} (h : proposal.nullish = false) (k : String) :
    readPath proposal [k] = proposal.prop k := by
  simp [readPath, JsVal.optGet, h]

theorem readPath_two {proposal : JsVal} (h : proposal.nullish = false) (k l : String) :
    readPath proposal [k, l] = (proposal.prop k).optGet l := by
  simp [readPath, JsVal.optGet, h]

theorem truthy_false_of_nullish {v : JsVal} (h : v.nullish = true) : v.truthy = false := by
  cases v with
  | undefined => rfl
  | builtin n => simp [JsVal.nullish] at h
  | json j => cases j <;> simp_all [JsVal.nullish, JsVal.truthy, Json.truthy]

theorem yearValueOf_fallback {proposal : JsVal} {a b x : String}
    (h : yearValueOf proposal a = .ok x) : ∃ y, yearValueOf proposal b = .ok y := by
  unfold yearValueOf at h ⊢
  cases hg : proposal.get "year" with
  | error e => simp [hg] at h
  | ok year =>
    simp only [hg] at h ⊢
    split
    · next hc => rw [if_pos hc] at h; exact ⟨x, h⟩
    · exact ⟨b, rfl⟩

theorem pushRow_cons (k0 : String) (b0 : Bucket) (rest : Buckets) (key : String) (row : Row) :
    pushRow ((k0, b0) :: rest) key row =
      (if k0 = key then (k0, { b0 with rows := b0.rows ++ [row] }) else (k0, b0)) ::
        pushRow rest key row := rfl

theorem lookup_pushRow (map : Buckets) (key k : String) (row : Row) :
    (pushRow map key row).lookup k =
      (map.lookup k).map (fun b =>
        if k = key then { b with rows := b.rows ++ [row] } else b) := by
  induction map with
  | nil => rfl
  | cons entry rest ih =>
    obtain ⟨k0, b0⟩ := entry
    rw [pushRow_cons]
    by_cases hk0 : k0 = key
    · rw [if_pos hk0]
      by_cases hk : k = k0
      · subst hk
        simp [List.lookup, hk0]
      · simp only [List.lookup, beq_eq_false_iff_ne.2 hk]
        exact ih
    · rw [if_neg hk0]
      by_cases hk : k = k0
      · subst hk
        simp [List.lookup, hk0]
      · simp only [List.lookup, beq_eq_false_iff_ne.2 hk]
        exact ih

theorem lookup_append_single (map : Buckets) (key k : String) (b : Bucket) :
    (map ++ [(key, b)]).lookup k =
      match map.lookup k with
      | some x => some x
      | none => if k = key then some b else none := by
  induction map with
  | nil =>
    by_cases hk : k = key
    · subst hk; simp [List.lookup]
    · simp [List.lookup, beq_eq_false_iff_ne.2 hk, hk]
  | cons entry rest ih =>
    obtain ⟨k0, b0⟩ := entry
    by_cases hk : k = k0
    · subst hk; simp [List.lookup]
    · simp only [List.cons_append, List.lookup, beq_eq_false_iff_ne.2 hk]
      exact ih

theorem bucketRows_step (map : Buckets) (key k : String) (yearId : JsVal) (row : Row) :
    bucketRows (pushRow (ensureYearBucket map key key yearId) key row) k =
      bucketRows map k ++ (if k = key then [row] else []) := by
  unfold bucketRows ensureYearBucket
  rw [lookup_pushRow]
  cases hkey : map.lookup key with
  | some b0 =>
    simp only [Option.isSome_some, if_true]
    by_cases hk : k = key
    · subst hk; simp [hkey]
    · cases hl : map.lookup k <;> simp [hk]
  | none =>
    simp only [Option.isSome_none, Bool.false_eq_true, if_false]
    rw [lookup_append_single]
    by_cases hk : k = key
    · subst hk; simp [hkey]
    · cases hl : map.lookup k <;> simp [hk]

theorem lookup_isSome_iff (map : Buckets) (k : String) :
    (map.lookup k).isSome = true ↔ k ∈ bucketKeys map := by
  induction map with
  | nil => simp [bucketKeys]
  | cons entry rest ih =>
    obtain ⟨k0, b0⟩ := entry
    by_cases hk : k = k0
    · subst hk; simp [List.lookup, bucketKeys]
    · simp only [List.lookup, beq_eq_false_iff_ne.2 hk, bucketKeys, List.map_cons,
        List.mem_cons, hk, false_or]
      exact ih

theorem bucketKeys_pushRow (map : Buckets) (key : String) (row : Row) :
    bucketKeys (pushRow map key row) = bucketKeys map := by
  unfold bucketKeys pushRow
  rw [List.map_map]
  apply List.map_congr_left
  intro entry _
  simp only [Function.comp]
  split <;> rfl

theorem totalRows_pushRow (map : Buckets) (key : String) (row : Row)
    (hnodup : (bucketKeys map).Nodup) (hmem : key ∈ bucketKeys map) :
    totalRows (pushRow map key row) = totalRows map + 1 := by
  induction map with
  | nil => simp [bucketKeys] at hmem
  | cons entry rest ih =>
    obtain ⟨k0, b0⟩ := entry
    simp only [bucketKeys, List.map_cons, List.nodup_cons, List.mem_cons] at hnodup hmem
    by_cases hk : k0 = key
    · subst hk
      have hrest : pushRow rest k0 row = rest := by
        unfold pushRow
        conv_rhs => rw [← List.map_id rest]
        apply List.map_congr_left
        intro entry hentry
        have : entry.1 ≠ k0 := by
          intro e
          exact hnodup.1 (e ▸ List.mem_map_of_mem Prod.fst hentry)
        simp [this]
      rw [pushRow_cons, if_pos rfl, hrest]
      simp [totalRows]
      omega
    · have hcons : pushRow ((k0, b0) :: rest) key row = (k0, b0) :: pushRow rest key row := by
        rw [pushRow_cons, if_neg hk]
      have hmem2 : key ∈ bucketKeys rest := by
        rcases hmem with h | h
        · exact absurd h.symm hk
        · exact h
      have := ih hnodup.2 hmem2
      rw [hcons]
      simp only [totalRows, List.map_cons, List.sum_cons] at this ⊢
      omega

theorem ensureYearBucket_keys (map : Buckets) (key yearValue : String) (yearId : JsVal)
    (hnodup : (bucketKeys map).Nodup) :
    (bucketKeys (ensureYearBucket map key yearValue yearId)).Nodup ∧
      key ∈ bucketKeys (ensureYearBucket map key yearValue yearId) ∧
      totalRows (ensureYearBucket map key yearValue yearId) = totalRows map := by
  unfold ensureYearBucket
  by_cases h : (map.lookup key).isSome = true
  · rw [if_pos h]
    exact ⟨hnodup, (lookup_isSome_iff map key).1 h, rfl⟩
  · have hnot : key ∉ bucketKeys map := fun hm => h ((lookup_isSome_iff map key).2 hm)
    rw [if_neg h]
    refine ⟨?_, ?_, ?_⟩
    · simp only [bucketKeys, List.map_append, List.map_cons, List.map_nil]
      rw [List.nodup_append]
      refine ⟨hnodup, List.nodup_singleton _, ?_⟩
      intro a ha hb
      simp only [List.mem_singleton] at hb
      subst hb
      exact hnot ha
    · simp [bucketKeys]
    · simp [totalRows]

theorem processProposal_ok (lastSyncedAt : String) (map : Buckets) (record : Json)
    (hflat : flattens lastSyncedAt record = true) :
    ∃ key row yearId, yearValueOf (.json record) "unknown" = .ok key ∧
      flattenProposal (.json record) lastSyncedAt = .ok row ∧
      processProposal lastSyncedAt map record =
        .ok (pushRow (ensureYearBucket map key key yearId) key row) := by
  unfold flattens at hflat
  cases hrow : flattenProposal (.json record) lastSyncedAt with
  | error e => simp [hrow] at hflat
  | ok row =>
    obtain ⟨y, _, _, _, _, _, _, _, _, _, _, hy, _⟩ := flattenProposal_shape hrow
    obtain ⟨key, hkey⟩ := yearValueOf_fallback (b := "unknown") hy
    refine ⟨key, row, jsOr (((JsVal.json record).prop "year").optGet "id") (jsStr ""), hkey,
      rfl, ?_⟩
    simp only [processProposal, hkey, hrow]

theorem processAll_spec (lastSyncedAt : String) (records : List Json) :
    ∀ map : Buckets, (∀ r ∈ records, flattens lastSyncedAt r = true) →
      (bucketKeys map).Nodup →
      ∃ map', processAll lastSyncedAt map records = .ok map' ∧
        (bucketKeys map').Nodup ∧
        totalRows map' = totalRows map + records.length ∧
        ∀ k, ∃ rows,
          mapE (fun r => flattenProposal (.json r) lastSyncedAt)
            (records.filter (fun r => yearValueOf (.json r) "unknown" = .ok k)) = .ok rows ∧
          bucketRows map' k = bucketRows map k ++ rows := by
  induction records with
  | nil =>
    intro map _ hnodup
    exact ⟨map, rfl, hnodup, rfl, fun k => ⟨[], rfl, by simp⟩⟩
  | cons r rest ih =>
    intro map hflat hnodup
    obtain ⟨key, row, yearId, hkey, hrow, hstep⟩ :=
      processProposal_ok lastSyncedAt map r (hflat r (List.mem_cons_self _ _))
    obtain ⟨hn1, hmem1, ht1⟩ := ensureYearBucket_keys map key key yearId hnodup
    have hn2 : (bucketKeys (pushRow (ensureYearBucket map key key yearId) key row)).Nodup := by
      rw [bucketKeys_pushRow]; exact hn1
    obtain ⟨map', hall, hn', ht', hrows'⟩ :=
      ih (pushRow (ensureYearBucket map key key yearId) key row)
        (fun x hx => hflat x (List.mem_cons_of_mem _ hx)) hn2
    refine ⟨map', ?_, hn', ?_, ?_⟩
    · simp only [processAll, hstep]
      exact hall
    · rw [ht', totalRows_pushRow _ _ _ hn1 hmem1, ht1, List.length_cons]
      omega
    · intro k
      obtain ⟨rows, hmap, hb⟩ := hrows' k
      rw [bucketRows_step] at hb
      by_cases hk : k = key
      · subst hk
        refine ⟨row :: rows, ?_, ?_⟩
        · rw [List.filter_cons, if_pos (by simp [hkey])]
          simp only [mapE, hrow, hmap]
        · rw [hb]; simp
      · refine ⟨rows, ?_, ?_⟩
        · have hne : ¬ (decide (yearValueOf (.json r) "unknown" = .ok k) = true) := by
            rw [hkey]
            simp only [decide_eq_true_eq, Except.ok.injEq]
            exact fun e => hk e.symm
          rw [List.filter_cons, if_neg hne]
          exact hmap
        · rw [hb]; simp [hk]

theorem processAll_append (lastSyncedAt : String) (xs ys : List Json) :
    ∀ map : Buckets, processAll lastSyncedAt map (xs ++ ys) =
      match processAll lastSyncedAt map xs with
      | .error e => .error e
      | .ok map1 => processAll lastSyncedAt map1 ys := by
  induction xs with
  | nil => intro map; rfl
  | cons x xs ih =>
    intro map
    simp only [List.cons_append, processAll]
    cases processProposal lastSyncedAt map x with
    | error e => rfl
    | ok map1 => exact ih map1

theorem fetchLoop_done (cfg : Config) (server : Server) (ts : String) (fuel : Nat)
    (s : LoopState) (trace : List Event) (h0 : s.remaining = 0) :
    fetchLoop cfg server ts fuel s trace = some (.ok s, trace) := by
  cases fuel <;> simp [fetchLoop, h0]

theorem fetchLoop_trace (cfg : Config) (server : Server) (ts : String) :
    ∀ (fuel : Nat) (s : LoopState) (trace : List Event), s.remaining ≤ fuel →
      ∃ out requests, fetchLoop cfg server ts fuel s trace = some (out, trace ++ requests) ∧
        (∀ ev ∈ requests, ∃ skip, ev = Event.pageRequest cfg.batchSize skip) ∧
        (∀ skip e, Event.pageRequest cfg.batchSize skip ∈ requests →
          server.page cfg.batchSize skip = .error e → out = .error e) := by
  intro fuel
  induction fuel with
  | zero =>
    intro s trace hfuel
    have h0 : s.remaining = 0 := by omega
    exact ⟨.ok s, [], by rw [fetchLoop_done _ _ _ _ _ _ h0]; simp, by simp, by simp⟩
  | succ fuel ih =>
    intro s trace hfuel
    by_cases h0 : s.remaining = 0
    · exact ⟨.ok s, [], by rw [fetchLoop_done _ _ _ _ _ _ h0]; simp, by simp, by simp⟩
    · have hpos : 0 < s.remaining := by omega
      have hone : ∀ (out : Except String LoopState),
          (∀ e, server.page cfg.batchSize s.skip = .error e → out = .error e) →
          (∀ ev ∈ [Event.pageRequest cfg.batchSize s.skip],
              ∃ skip, ev = Event.pageRequest cfg.batchSize skip) ∧
            (∀ skip e, Event.pageRequest cfg.batchSize skip ∈
                [Event.pageRequest cfg.batchSize s.skip] →
              server.page cfg.batchSize skip = .error e → out = .error e) := by
        intro out hout
        refine ⟨fun ev hev => ⟨s.skip, by simpa using hev⟩, ?_⟩
        intro skip e hmem hpage
        simp only [List.mem_singleton, Event.pageRequest.injEq, true_and] at hmem
        subst hmem
        exact hout e hpage
      unfold fetchLoop
      rw [if_pos hpos]
      cases hpage : server.page cfg.batchSize s.skip with
      | error e =>
        refine ⟨.error e, [Event.pageRequest cfg.batchSize s.skip], rfl, hone _ ?_⟩
        intro e' he'
        rw [hpage] at he'
        cases he'
        rfl
      | ok batch =>
        dsimp only
        by_cases hempty : batch.length = 0
        · rw [if_pos hempty]
          exact ⟨.ok s, [Event.pageRequest cfg.batchSize s.skip], rfl,
            hone _ (fun e he => by rw [hpage] at he; cases he)⟩
        · rw [if_neg hempty]
          cases hproc : processAll ts s.buckets (batch.take (min batch.length s.remaining)) with
          | error e =>
            exact ⟨.error e, [Event.pageRequest cfg.batchSize s.skip], rfl,
              hone _ (fun e he => by rw [hpage] at he; cases he)⟩
          | ok buckets =>
            dsimp only
            by_cases hshort : batch.length < cfg.batchSize
            · rw [if_pos hshort]
              exact ⟨_, [Event.pageRequest cfg.batchSize s.skip], rfl,
                hone _ (fun e he => by rw [hpage] at he; cases he)⟩
            · rw [if_neg hshort]
              obtain ⟨out, requests, hloop, hform, hfail⟩ :=
                ih { buckets := buckets
                     skip := s.skip + batch.length
                     processed := s.processed +
                       (batch.take (min batch.length s.remaining)).length
                     remaining := s.remaining -
                       (batch.take (min batch.length s.remaining)).length }
                  (trace ++ [Event.pageRequest cfg.batchSize s.skip])
                  (by
                    simp only [List.length_take]
                    omega)
              refine ⟨out, Event.pageRequest cfg.batchSize s.skip :: requests, ?_, ?_, ?_⟩
              · rw [hloop]; simp
              · intro ev hev
                rcases List.mem_cons.1 hev with h | h
                · exact ⟨s.skip, h⟩
                · exact hform ev h
              · intro skip e hmem hfails
                rcases List.mem_cons.1 hmem with h | h
                · simp only [Event.pageRequest.injEq, true_and] at h
                  subst h
                  rw [hpage] at hfails
                  cases hfails
                · exact hfail skip e h hfails

theorem writeBuckets_events (cfg : Config) (ts : String) (map : List (String × Bucket)) :
    ∀ cumulative : Nat, ∀ ev ∈ (writeBuckets cfg ts map cumulative).1,
      ev.isWrite = true ∧ ev.isRequest = false := by
  induction map with
  | nil => intro c ev hev; simp [writeBuckets] at hev
  | cons entry rest ih =>
    intro c ev hev
    obtain ⟨k, b⟩ := entry
    simp only [writeBuckets, List.mem_append] at hev
    rcases hev with h | h
    · simp only [bucketWrites, List.mem_cons, List.mem_singleton, List.not_mem_nil,
        or_false] at h
      rcases h with h | h | h <;> subst h <;> exact ⟨rfl, rfl⟩
    · exact ih _ ev h

/-! ## The claims -/

/-- C3, counterexample. The row of the sample record has 26 fields, not 25. -/
theorem flattenProposal_row_not_25_fields :
    ∃ row, flattenProposal (.json sampleProposal) "2024-05-01T00:00:00.000Z" = .ok row ∧
      row.length = 26 ∧ row.length ≠ 25 :=
  ⟨sampleRow "2024-05-01T00:00:00.000Z", by decide, by decide, by decide⟩

/-- C3, amended. Every row `flattenProposal` returns has exactly 26 fields, and its key
sequence is the key sequence of `CSV_COLUMNS`, in the same order. -/
theorem flattenProposal_keys (proposal : JsVal) (lastSyncedAt : String) (row : Row)
    (h : flattenProposal proposal lastSyncedAt = .ok row) :
    row.length = 26 ∧ row.map Prod.fst = CSV_COLUMNS.map Prod.fst := by
  obtain ⟨_, _, _, _, _, _, _, _, _, _, _, _, _, _, _, _, _, _, _, _, _, _, hrow⟩ :=
    flattenProposal_shape h
  subst hrow
  exact ⟨rfl, rfl⟩

/-- C3, instance: the row of the sample record. -/
theorem flattenProposal_keys_witness :
    flattenProposal (.json sampleProposal) "2024-05-01T00:00:00.000Z" =
        .ok (sampleRow "2024-05-01T00:00:00.000Z") ∧
      (sampleRow "2024-05-01T00:00:00.000Z").length = 26 ∧
      (sampleRow "2024-05-01T00:00:00.000Z").map Prod.fst = CSV_COLUMNS.map Prod.fst :=
  ⟨by decide,
    flattenProposal_keys (.json sampleProposal) "2024-05-01T00:00:00.000Z"
      (sampleRow "2024-05-01T00:00:00.000Z") (by decide)⟩

/-- C5, the failing input. A record whose `historicalProposals` list holds a `null`
element makes `flattenProposal` throw, because `formatIdList` reads `node.id` without a
null check; on the same list `formatLabelList` and `formatSingleRelationId`, which guard
the element, return the empty string. -/
theorem flattenProposal_null_relation_node_throws : 
    flattenProposal (.json (.obj [("id", .str "p-1"), ("historicalProposals", .arr [.null])]))
        "2024-05-01T00:00:00.000Z"
      = .error "TypeError: Cannot read properties of undefined or null" ∧
    formatIdList (.json (.arr [.null])) =
      .error "TypeError: Cannot read properties of undefined or null" ∧
    formatLabelList (.json (.arr [.null])) "name" = .ok "" ∧
    formatSingleRelationId (.json (.arr [.null])) = jsStr "" := by
  decide

/-- C6. For every row, the result of `pruneEmptyFields` has no entry and no key
`last_synced_at`; every entry it has is an entry of the row whose value is none of the
empty string, `null` and `undefined`, and no entry of the row with such a value is kept;
so for a row with pairwise distinct keys, as an object has, the result has no key whose
value in the row is the empty string, `null` or `undefined`. -/
theorem pruneEmptyFields_drops_empty (row : Row) :
    (∀ v, ("last_synced_at", v) ∉ pruneEmptyFields row) ∧
    "last_synced_at" ∉ (pruneEmptyFields row).map Prod.fst ∧
    (∀ k v, (k, v) ∈ pruneEmptyFields row →
      (k, v) ∈ row ∧ v ≠ jsStr "" ∧ v ≠ .json .null ∧ v ≠ .undefined) ∧
    (∀ k v, (k, v) ∈ row → (v = jsStr "" ∨ v = .json .null ∨ v = .undefined) →
      (k, v) ∉ pruneEmptyFields row) ∧
    ((row.map Prod.fst).Nodup →
      ∀ k v, row.lookup k = some v → (v = jsStr "" ∨ v = .json .null ∨ v = .undefined) →
        k ∉ (pruneEmptyFields row).map Prod.fst) := by
  have key : ∀ k v, (k, v) ∈ pruneEmptyFields row ↔
      (k, v) ∈ row ∧ k ≠ "last_synced_at" ∧ v ≠ jsStr "" ∧ v ≠ .undefined ∧ v ≠ .json .null := by
    intro k v
    simp only [pruneEmptyFields, List.mem_filter, Bool.and_eq_true, bne_iff_ne, ne_eq]
    tauto
  refine ⟨?_, ?_, ?_, ?_, ?_⟩
  · intro v hv
    exact ((key _ _).1 hv).2.1 rfl
  · intro hmem
    obtain ⟨⟨k, v⟩, hkv, hk⟩ := List.mem_map.1 hmem
    simp only at hk
    subst hk
    exact ((key _ _).1 hkv).2.1 rfl
  · intro k v hv
    obtain ⟨h1, _, h3, h4, h5⟩ := (key _ _).1 hv
    exact ⟨h1, h3, h5, h4⟩
  · intro k v _ hempty hv
    obtain ⟨_, _, h3, h4, h5⟩ := (key _ _).1 hv
    rcases hempty with h | h | h
    · exact h3 h
    · exact h5 h
    · exact h4 h
  · intro hnodup k v hlookup hempty hmem
    obtain ⟨⟨k1, v1⟩, hkv, hk⟩ := List.mem_map.1 hmem
    simp only at hk
    subst hk
    obtain ⟨h1, _, h3, h4, h5⟩ := (key _ _).1 hkv
    have hv : v1 = v := by
      have := lookup_of_mem_of_nodup row k1 v1 hnodup h1
      rw [hlookup] at this
      exact (Option.some.inj this).symm
    subst hv
    rcases hempty with h | h | h
    · exact h3 h
    · exact h5 h
    · exact h4 h

/-- C6, instance: the row of the sample record loses its empty `description` and its
`last_synced_at`. -/
theorem pruneEmptyFields_drops_empty_witness :
    ((sampleRow "2024-05-01T00:00:00.000Z").map Prod.fst).Nodup ∧
      (sampleRow "2024-05-01T00:00:00.000Z").lookup "description" = some (jsStr "") ∧
      "description" ∉ (pruneEmptyFields (sampleRow "2024-05-01T00:00:00.000Z")).map Prod.fst ∧
      "last_synced_at" ∉ (pruneEmptyFields (sampleRow "2024-05-01T00:00:00.000Z")).map Prod.fst :=
  ⟨by decide, by decide,
    (pruneEmptyFields_drops_empty (sampleRow "2024-05-01T00:00:00.000Z")).2.2.2.2 (by decide) "description"
      (jsStr "") (by decide) (Or.inl rfl),
    (pruneEmptyFields_drops_empty (sampleRow "2024-05-01T00:00:00.000Z")).2.1⟩

/-- C7. For every input `formatSingleRelationId` returns what the specification says:
for a list the id of the first element that is not null and has a non-empty id, or the
empty string when no element qualifies; the empty string for `null` and `undefined`; for
any other value its id, or the empty string when the id is missing or empty. An id
counts as empty when it is falsy; for a string id that is the empty string. -/
theorem formatSingleRelationId_spec (node : JsVal) :
    formatSingleRelationId node = specSingleRelationId node ∧
      (∀ s : String, (jsStr s).truthy = true ↔ s ≠ "") :=
  ⟨formatSingleRelationId_eq_spec node, fun s => by simp [JsVal.truthy, Json.truthy]⟩

/-- C9, counterexample. For the tags `freeze` and the empty string the code returns the
label of `freeze` alone, while joining every tag gives that label followed by the
separator. -/
theorem formatProposalTypes_drops_empty_tag :
    formatProposalTypes (.json (.arr [.str "freeze", .str ""])) = .ok "凍結" ∧
      specProposalTypes ["freeze", ""] = "凍結、" ∧
      formatProposalTypes (.json (.arr [.str "freeze", .str ""])) ≠
        .ok (specProposalTypes ["freeze", ""]) := by
  decide

/-- C9, amended. For every list of type tags none of which names a property inherited
from `Object.prototype`, `formatProposalTypes` returns the non-empty tags, each replaced
by its label from the table or kept verbatim, joined in input order with the separator;
empty tags are dropped. For an input that is not a list, or is the empty list, it returns
the empty string. -/
theorem formatProposalTypes_labels (tags : List String)
    (hplain : ∀ t ∈ tags, t ∉ objectPrototypeNames) :
    formatProposalTypes (.json (.arr (tags.map Json.str))) =
        .ok (specProposalTypes (tags.filter (fun t => t ≠ ""))) ∧
      (∀ v : JsVal, (∀ items, v = .json (.arr items) → items = []) →
        formatProposalTypes v = .ok "") := by
  constructor
  · cases tags with
    | nil => rfl
    | cons t ts =>
      have hm := mapE_map_ok Json.str proposalTypeLabel (fun t => jsStr (specTypeLabel t))
        (t :: ts) (fun x hx => proposalTypeLabel_plain x (hplain x hx))
      unfold formatProposalTypes
      simp only [List.length_map, List.length_cons, Nat.add_one_ne_zero, if_false, hm]
      rw [filter_truthy_labels, joinValues_strings]
      rfl
  · intro v hv
    unfold formatProposalTypes
    split
    · next items =>
      have := hv items rfl
      subst this
      rfl
    · rfl

/-- C9, instance: the tags `freeze` and `reduce`. -/
theorem formatProposalTypes_labels_witness :
    (∀ t ∈ ["freeze", "reduce"], t ∉ objectPrototypeNames) ∧
      formatProposalTypes (.json (.arr [.str "freeze", .str "reduce"])) = .ok "凍結、減列" :=
  ⟨by decide, (formatProposalTypes_labels ["freeze", "reduce"] (by decide)).1⟩

/-- C10. Every run of `exportProposals` ends, with an outcome and a trace of effects. If
the count request fails, or a page request in the trace fails, the run fails with that
error and the trace holds no `writeFile`; more generally a failed run has written no
file. In every trace all requests come before all file writes: the trace splits into a
part without writes followed by a part without requests. -/
theorem exportProposals_failure_writes_nothing (cfg : Config) (server : Server)
    (lastSyncedAt : String) :
    ∃ out trace, exportProposals cfg server lastSyncedAt = some (out, trace) ∧
      (∀ e, server.count = .error e →
        out = .error e ∧ ∀ ev ∈ trace, ev.isWrite = false) ∧
      (∀ take skip e, Event.pageRequest take skip ∈ trace →
        server.page take skip = .error e →
          out = .error e ∧ ∀ ev ∈ trace, ev.isWrite = false) ∧
      (∀ e, out = .error e → ∀ ev ∈ trace, ev.isWrite = false) ∧
      (∃ before after, trace = before ++ after ∧
        (∀ ev ∈ before, ev.isWrite = false) ∧ (∀ ev ∈ after, ev.isRequest = false)) := by
  unfold exportProposals
  cases hcount : server.count with
  | error e =>
    refine ⟨.error e, [.countRequest], rfl, ?_, ?_, ?_, ?_⟩
    · intro e' he'
      cases he'
      exact ⟨rfl, by simp [Event.isWrite]⟩
    · intro take skip e' hmem
      simp at hmem
    · intro _ _
      simp [Event.isWrite]
    · exact ⟨[.countRequest], [], rfl, by simp [Event.isWrite], by simp⟩
  | ok total =>
    obtain ⟨out, requests, hloop, hform, hfail⟩ :=
      fetchLoop_trace cfg server lastSyncedAt cfg.maxRecords (initialState cfg)
        [.countRequest, .mkdir cfg.outputRoot] (Nat.le_refl _)
    have hnowrite : ∀ ev ∈ [Event.countRequest, Event.mkdir cfg.outputRoot] ++ requests,
        ev.isWrite = false := by
      intro ev hev
      rcases List.mem_append.1 hev with h | h
      · simp only [List.mem_cons, List.mem_singleton, List.not_mem_nil, or_false] at h
        rcases h with h | h <;> subst h <;> rfl
      · obtain ⟨skip, h⟩ := hform ev h
        subst h
        rfl
    have hpage : ∀ take skip e,
        Event.pageRequest take skip ∈ [Event.countRequest, Event.mkdir cfg.outputRoot] ++ requests →
        server.page take skip = .error e → out = .error e := by
      intro take skip e hmem hfails
      rcases List.mem_append.1 hmem with h | h
      · simp at h
      · obtain ⟨skip', h'⟩ := hform _ h
        simp only [Event.pageRequest.injEq] at h'
        obtain ⟨htake, _⟩ := h'
        subst htake
        exact hfail skip e h hfails
    rw [hloop]
    dsimp only
    cases out with
    | error e =>
      refine ⟨.error e, _, rfl, ?_, ?_, ?_, ?_⟩
      · intro e' he'
        cases he'
      · intro take skip e' hmem hfails
        have he := Except.error.inj (hpage take skip e' hmem hfails)
        subst he
        exact ⟨rfl, hnowrite⟩
      · intro _ _
        exact hnowrite
      · exact ⟨_, [], (List.append_nil _).symm, hnowrite, by simp⟩
    | ok s =>
      dsimp only
      by_cases hempty : s.buckets.length = 0
      · rw [if_pos hempty]
        refine ⟨_, _, rfl, ?_, ?_, ?_, ?_⟩
        · intro e' he'
          cases he'
        · intro take skip e' hmem hfails
          cases hpage take skip e' hmem hfails
        · intro e' he'
          cases he'
        · exact ⟨_, [], (List.append_nil _).symm, hnowrite, by simp⟩
      · rw [if_neg hempty]
        have hafter : ∀ ev ∈ (writeBuckets cfg lastSyncedAt s.buckets 0).1 ++
            writeRootMetadata cfg lastSyncedAt s.buckets.length
              (writeBuckets cfg lastSyncedAt s.buckets 0).2 cfg.maxRecords,
            ev.isRequest = false := by
          intro ev hev
          rcases List.mem_append.1 hev with h | h
          · exact (writeBuckets_events cfg lastSyncedAt s.buckets 0 ev h).2
          · simp only [writeRootMetadata, List.mem_cons, List.mem_singleton, List.not_mem_nil,
              or_false] at h
            rcases h with h | h <;> subst h <;> rfl
        refine ⟨_, _, rfl, ?_, ?_, ?_, ?_⟩
        · intro e' he'
          cases he'
        · intro take skip e' hmem hfails
          rw [List.append_assoc] at hmem
          rcases List.mem_append.1 hmem with h | h
          · cases hpage take skip e' h hfails
          · have := hafter _ h
            simp [Event.isRequest] at this
        · intro e' he'
          cases he'
        · exact ⟨_, _, List.append_assoc _ _ _, hnowrite, hafter⟩

/-! ## Further lemmas and claims -/

theorem processProposal_inv {lastSyncedAt : String} {map map' : Buckets} {record : Json}
    (h : processProposal lastSyncedAt map record = .ok map') :
    ∃ key row, yearValueOf (.json record) "unknown" = .ok key ∧
      flattenProposal (.json record) lastSyncedAt = .ok row ∧
      map' = pushRow (ensureYearBucket map key key
        (jsOr (((JsVal.json record).prop "year").optGet "id") (jsStr ""))) key row := by
  unfold processProposal at h
  cases hkey : yearValueOf (.json record) "unknown" with
  | error e => simp [hkey] at h
  | ok key =>
    cases hrow : flattenProposal (.json record) lastSyncedAt with
    | error e => simp [hkey, hrow] at h
    | ok row =>
      simp only [hkey, hrow, Except.ok.injEq] at h
      exact ⟨key, row, rfl, rfl, h.symm⟩

theorem processAll_cons_inv {lastSyncedAt : String} {map map' : Buckets} {record : Json}
    {rest : List Json} (h : processAll lastSyncedAt map (record :: rest) = .ok map') :
    ∃ map1, processProposal lastSyncedAt map record = .ok map1 ∧
      processAll lastSyncedAt map1 rest = .ok map' := by
  unfold processAll at h
  cases hstep : processProposal lastSyncedAt map record with
  | error e => simp [hstep] at h
  | ok map1 =>
    simp only [hstep] at h
    exact ⟨map1, rfl, h⟩

theorem processAll_flattens (lastSyncedAt : String) (records : List Json) :
    ∀ map map', processAll lastSyncedAt map records = .ok map' →
      ∀ r ∈ records, flattens lastSyncedAt r = true := by
  induction records with
  | nil => intro _ _ _ r hr; cases hr
  | cons record rest ih =>
    intro map map' h r hr
    obtain ⟨map1, hstep, hrest⟩ := processAll_cons_inv h
    rcases List.mem_cons.1 hr with e | e
    · subst e
      obtain ⟨_, row, _, hrow, _⟩ := processProposal_inv hstep
      simp [flattens, hrow]
    · exact ih map1 map' hrest r e

theorem processAll_invariant (lastSyncedAt : String) (Inv : Buckets → Prop)
    (hstep : ∀ map record map', Inv map →
      processProposal lastSyncedAt map record = .ok map' → Inv map')
    (records : List Json) :
    ∀ map map', Inv map → processAll lastSyncedAt map records = .ok map' → Inv map' := by
  induction records with
  | nil =>
    intro map map' hinv h
    cases h
    exact hinv
  | cons record rest ih =>
    intro map map' hinv h
    obtain ⟨map1, h1, hrest⟩ := processAll_cons_inv h
    exact ih map1 map' (hstep map record map1 hinv h1) hrest

theorem bucketKeys_step (map : Buckets) (key : String) (yearId : JsVal) (row : Row) (k : String) :
    k ∈ bucketKeys (pushRow (ensureYearBucket map key key yearId) key row) ↔
      k ∈ bucketKeys map ∨ k = key := by
  rw [bucketKeys_pushRow]
  unfold ensureYearBucket
  by_cases h : (map.lookup key).isSome = true
  · rw [if_pos h]
    have := (lookup_isSome_iff map key).1 h
    constructor
    · exact Or.inl
    · rintro (h1 | h1)
      · exact h1
      · subst h1; exact this
  · rw [if_neg h]
    simp [bucketKeys]

theorem processAll_keys (lastSyncedAt : String) (records : List Json) :
    ∀ map map', processAll lastSyncedAt map records = .ok map' →
      ∀ k, k ∈ bucketKeys map' ↔ k ∈ bucketKeys map ∨ k ∈ yearKeys records := by
  induction records with
  | nil =>
    intro map map' h k
    cases h
    simp [yearKeys]
  | cons record rest ih =>
    intro map map' h k
    obtain ⟨map1, hstep, hrest⟩ := processAll_cons_inv h
    obtain ⟨key, row, hkey, _, hmap1⟩ := processProposal_inv hstep
    rw [ih map1 map' hrest k, hmap1, bucketKeys_step]
    have hy : yearKeys (record :: rest) = key :: yearKeys rest := by
      simp [yearKeys, hkey]
    rw [hy, List.mem_cons]
    tauto

theorem mem_step {map : Buckets} {key : String} {yearId : JsVal} {row : Row}
    {entry : String × Bucket}
    (h : entry ∈ pushRow (ensureYearBucket map key key yearId) key row) :
    (entry ∈ map ∧ entry.1 ≠ key) ∨
      (entry.1 = key ∧ ∃ b : Bucket,
        ((key, b) ∈ map ∨ b = { yearValue := key, yearId := yearId, rows := [] }) ∧
        entry.2 = { b with rows := b.rows ++ [row] }) := by
  unfold pushRow at h
  obtain ⟨e0, he0, hf⟩ := List.mem_map.1 h
  have hsrc : e0 ∈ map ∨ e0 = (key, { yearValue := key, yearId := yearId, rows := [] }) := by
    unfold ensureYearBucket at he0
    split at he0
    · exact Or.inl he0
    · rcases List.mem_append.1 he0 with h1 | h1
      · exact Or.inl h1
      · exact Or.inr (List.mem_singleton.1 h1)
  by_cases hk : e0.1 = key
  · rw [if_pos hk] at hf
    right
    subst hf
    refine ⟨hk, e0.2, ?_, rfl⟩
    rcases hsrc with h1 | h1
    · left
      rw [← hk]
      exact h1
    · right
      rw [h1]
  · rw [if_neg hk] at hf
    subst hf
    left
    rcases hsrc with h1 | h1
    · exact ⟨h1, hk⟩
    · rw [h1] at hk
      exact absurd rfl hk

theorem yearValueOf_cases {proposal : JsVal} {fallback key : String}
    (h : yearValueOf proposal fallback = .ok key) :
    (hasYearValue proposal = true ∧ ((proposal.prop "year").prop "year").toStr = .ok key) ∨
      (hasYearValue proposal = false ∧ key = fallback) := by
  have hp := notNullish_of_yearValueOf h
  unfold yearValueOf JsVal.get at h
  simp only [hp, Bool.false_eq_true, if_false] at h
  unfold hasYearValue
  split at h
  · next hc => exact Or.inl ⟨hc, h⟩
  · next hc =>
    right
    constructor
    · simpa using hc
    · cases h; rfl

theorem bucketsKeyed_step (lastSyncedAt : String) (map : Buckets) (record : Json)
    (map' : Buckets) (hinv : BucketsKeyed map)
    (h : processProposal lastSyncedAt map record = .ok map') : BucketsKeyed map' := by
  obtain ⟨key, row, hkey, hrow, hmap⟩ := processProposal_inv h
  obtain ⟨y, _, _, _, _, _, _, _, _, _, _, hy, _, _, _, _, _, _, _, _, _, _, hshape⟩ :=
    flattenProposal_shape hrow
  have hyearField : row.lookup "year" = some (jsStr y) := by
    rw [hshape]
    simp [List.lookup]
  have hrel : row.lookup "year" = some (jsStr key) ∨
      (key = "unknown" ∧ row.lookup "year" = some (jsStr "")) := by
    rcases yearValueOf_cases hkey with ⟨h1, h2⟩ | ⟨h1, h2⟩
    · rcases yearValueOf_cases hy with ⟨_, h4⟩ | ⟨h3, _⟩
      · rw [h2] at h4
        cases h4
        exact Or.inl hyearField
      · rw [h1] at h3; cases h3
    · rcases yearValueOf_cases hy with ⟨h3, _⟩ | ⟨_, h4⟩
      · rw [h1] at h3; cases h3
      · subst h4
        exact Or.inr ⟨h2, hyearField⟩
  intro entry hentry
  rw [hmap] at hentry
  rcases mem_step hentry with ⟨hold, _⟩ | ⟨hk, b, hb, he⟩
  · exact hinv entry hold
  · have hbkey : b.yearValue = key ∧ ∀ r ∈ b.rows, r.lookup "year" = some (jsStr key) ∨
        (key = "unknown" ∧ r.lookup "year" = some (jsStr "")) := by
      rcases hb with hb | hb
      · have := hinv (key, b) hb
        exact ⟨this.1, this.2.2⟩
      · subst hb
        exact ⟨rfl, fun r hr => by cases hr⟩
    rw [he, hk]
    refine ⟨hbkey.1, by simp, ?_⟩
    intro r hr
    rcases List.mem_append.1 hr with h1 | h1
    · exact hbkey.2 r h1
    · rw [List.mem_singleton.1 h1]
      exact hrel

theorem fetchLoop_general (cfg : Config) (server : Server) (ts : String) :
    ∀ (fuel : Nat) (s : LoopState) (trace : List Event), s.remaining ≤ fuel →
      ∃ out requests, fetchLoop cfg server ts fuel s trace = some (out, trace ++ requests) ∧
        (∀ ev ∈ requests, ∃ skip, ev = Event.pageRequest cfg.batchSize skip) ∧
        requests.length ≤ s.remaining ∧
        (∀ s', out = .ok s' →
          processAll ts s.buckets (consumedRecords cfg server fuel s.skip s.remaining) =
              .ok s'.buckets ∧
            s'.processed =
              s.processed + (consumedRecords cfg server fuel s.skip s.remaining).length ∧
            s'.remaining + (consumedRecords cfg server fuel s.skip s.remaining).length =
              s.remaining) := by
  intro fuel
  induction fuel with
  | zero =>
    intro s trace hfuel
    have h0 : s.remaining = 0 := by omega
    refine ⟨.ok s, [], by rw [fetchLoop_done _ _ _ _ _ _ h0]; simp, by simp, by simp, ?_⟩
    intro s' hs'
    cases hs'
    simp [consumedRecords, processAll]
  | succ fuel ih =>
    intro s trace hfuel
    by_cases h0 : s.remaining = 0
    · refine ⟨.ok s, [], by rw [fetchLoop_done _ _ _ _ _ _ h0]; simp, by simp, by simp, ?_⟩
      intro s' hs'
      cases hs'
      simp [consumedRecords, h0, processAll]
    · have hpos : 0 < s.remaining := by omega
      have hreq : ∀ ev ∈ [Event.pageRequest cfg.batchSize s.skip],
          ∃ skip, ev = Event.pageRequest cfg.batchSize skip :=
        fun ev hev => ⟨s.skip, by simpa using hev⟩
      unfold fetchLoop consumedRecords
      rw [if_pos hpos, if_pos hpos]
      cases hpage : server.page cfg.batchSize s.skip with
      | error e =>
        exact ⟨.error e, [Event.pageRequest cfg.batchSize s.skip], rfl, hreq,
          by simp; omega, fun s' hs' => by cases hs'⟩
      | ok batch =>
        dsimp only
        by_cases hempty : batch.length = 0
        · rw [if_pos hempty, if_pos hempty]
          refine ⟨.ok s, [Event.pageRequest cfg.batchSize s.skip], rfl, hreq,
            by simp; omega, ?_⟩
          intro s' hs'
          cases hs'
          simp [processAll]
        · rw [if_neg hempty, if_neg hempty]
          have hul : 1 ≤ (batch.take (min batch.length s.remaining)).length ∧
              (batch.take (min batch.length s.remaining)).length ≤ s.remaining := by
            rw [List.length_take]
            omega
          cases hproc : processAll ts s.buckets (batch.take (min batch.length s.remaining)) with
          | error e =>
            exact ⟨.error e, [Event.pageRequest cfg.batchSize s.skip], rfl, hreq,
              by simp; omega, fun s' hs' => by cases hs'⟩
          | ok buckets =>
            dsimp only
            by_cases hshort : batch.length < cfg.batchSize
            · rw [if_pos hshort, if_pos hshort]
              refine ⟨_, [Event.pageRequest cfg.batchSize s.skip], rfl, hreq,
                by simp; omega, ?_⟩
              intro s' hs'
              cases hs'
              refine ⟨hproc, rfl, ?_⟩
              simp only
              omega
            · rw [if_neg hshort, if_neg hshort]
              obtain ⟨out, requests, hloop, hform, hbound, hok⟩ :=
                ih { buckets := buckets
                     skip := s.skip + batch.length
                     processed := s.processed +
                       (batch.take (min batch.length s.remaining)).length
                     remaining := s.remaining -
                       (batch.take (min batch.length s.remaining)).length }
                  (trace ++ [Event.pageRequest cfg.batchSize s.skip])
                  (by simp only; omega)
              simp only at hbound hok
              refine ⟨out, Event.pageRequest cfg.batchSize s.skip :: requests, ?_, ?_, ?_, ?_⟩
              · rw [hloop]; simp
              · intro ev hev
                rcases List.mem_cons.1 hev with e | e
                · exact ⟨s.skip, e⟩
                · exact hform ev e
              · simp only [List.length_cons]
                omega
              · intro s' hs'
                obtain ⟨h1, h2, h3⟩ := hok s' hs'
                refine ⟨?_, ?_, ?_⟩
                · rw [processAll_append, hproc]
                  exact h1
                · rw [h2, List.length_append]
                  omega
                · rw [List.length_append]
                  omega

/-- C11. When the count request succeeds and the first page, the one at offset 0, is
empty, `exportProposals` returns the summary with `totalRecords = 0` and
`totalYears = 0`, and its trace holds no `writeFile`: no bucket file and no root
metadata file. -/
theorem exportProposals_empty_first_page (cfg : Config) (server : Server)
    (lastSyncedAt : String) (total : Int) (hcount : server.count = .ok total)
    (hpage : server.page cfg.batchSize 0 = .ok []) :
    ∃ trace, exportProposals cfg server lastSyncedAt =
        some (.ok { lastSyncedAt := lastSyncedAt, totalYears := 0, totalRecords := 0 }, trace) ∧
      (∀ ev ∈ trace, ev.isWrite = false) ∧
      (0 < cfg.maxRecords →
        trace = [.countRequest, .mkdir cfg.outputRoot, .pageRequest cfg.batchSize 0]) := by
  unfold exportProposals
  rw [hcount]
  dsimp only
  cases hM : cfg.maxRecords with
  | zero =>
    refine ⟨[.countRequest, .mkdir cfg.outputRoot], ?_, ?_, ?_⟩
    · simp [fetchLoop, initialState, hM]
    · intro ev hev
      simp only [List.mem_cons, List.mem_singleton, List.not_mem_nil, or_false] at hev
      rcases hev with h | h <;> subst h <;> rfl
    · intro h; omega
  | succ m =>
    refine ⟨[.countRequest, .mkdir cfg.outputRoot, .pageRequest cfg.batchSize 0], ?_, ?_, ?_⟩
    · simp [fetchLoop, initialState, hM, hpage]
    · intro ev hev
      simp only [List.mem_cons, List.mem_singleton, List.not_mem_nil, or_false] at hev
      rcases hev with h | h | h <;> subst h <;> rfl
    · intro _; rfl

/-- C11, instance: the server without records, batch size 2, cap 3. -/
theorem exportProposals_empty_first_page_witness :
    (sliceServer []).count = .ok 0 ∧ (sliceServer []).page 2 0 = .ok [] ∧
      ∃ trace, exportProposals (sampleConfig 2 3) (sliceServer []) "2024-05-01T00:00:00.000Z" =
          some (.ok { lastSyncedAt := "2024-05-01T00:00:00.000Z", totalYears := 0,
                      totalRecords := 0 }, trace) ∧
        (∀ ev ∈ trace, ev.isWrite = false) ∧
        (0 < 3 → trace = [.countRequest, .mkdir "out", .pageRequest 2 0]) :=
  ⟨rfl, rfl,
    exportProposals_empty_first_page (sampleConfig 2 3) (sliceServer [])
      "2024-05-01T00:00:00.000Z" 0 rfl rfl⟩

theorem pruneEmptyFields_eq_filter (row : Row) :
    pruneEmptyFields row = row.filter keptByPrune := by
  unfold pruneEmptyFields
  rw [List.filter_filter]
  apply List.filter_congr
  intro entry _
  simp only [keptByPrune]
  rw [Bool.and_comm]

/-- C19. `pruneEmptyFields` is the filter of the row by `keptByPrune`: the result is the
sub-list, in the order of the row and with the values of the row, of the entries whose
key is not `last_synced_at` and whose value is none of the empty string, `null` and
`undefined`. Hence pruning a pruned row changes nothing, and every entry of the row with
another key and a non-empty value is in the result. -/
theorem pruneEmptyFields_is_filter (row : Row) :
    pruneEmptyFields row = row.filter keptByPrune ∧
      (pruneEmptyFields row).Sublist row ∧
      (∀ k v, (k, v) ∈ pruneEmptyFields row ↔
        (k, v) ∈ row ∧ k ≠ "last_synced_at" ∧ v ≠ jsStr "" ∧ v ≠ .undefined ∧
          v ≠ .json .null) ∧
      pruneEmptyFields (pruneEmptyFields row) = pruneEmptyFields row ∧
      (∀ k v, (k, v) ∈ row → k ≠ "last_synced_at" → v ≠ jsStr "" → v ≠ .undefined →
        v ≠ .json .null → (k, v) ∈ pruneEmptyFields row) := by
  have hmem : ∀ k v, (k, v) ∈ pruneEmptyFields row ↔
      (k, v) ∈ row ∧ k ≠ "last_synced_at" ∧ v ≠ jsStr "" ∧ v ≠ .undefined ∧
        v ≠ .json .null := by
    intro k v
    rw [pruneEmptyFields_eq_filter]
    simp only [List.mem_filter, keptByPrune, Bool.and_eq_true, bne_iff_ne, ne_eq, and_assoc]
  refine ⟨pruneEmptyFields_eq_filter row, ?_, hmem, ?_, ?_⟩
  · rw [pruneEmptyFields_eq_filter]
    exact List.filter_sublist row
  · rw [pruneEmptyFields_eq_filter, pruneEmptyFields_eq_filter, List.filter_filter]
    apply List.filter_congr
    intro entry _
    simp
  · intro k v h1 h2 h3 h4 h5
    exact (hmem k v).2 ⟨h1, h2, h3, h4, h5⟩

/-- C12, counterexample. The sample record has the project name `""` on its budget object
and `road works` at proposal level; the row takes the proposal-level value although
the budget object has the attribute. -/
theorem flattenProposal_empty_budget_text_falls_back :
    readPath (.json sampleProposal) ["budget", "projectName"] = jsStr "" ∧
      readPath (.json sampleProposal) ["budgetProjectName"] = jsStr "road works" ∧
      (flattenProposal (.json sampleProposal) "2024-05-01T00:00:00.000Z").map
        (fun row => row.lookup "budget_project_name") = .ok (some (jsStr "road works")) := by
  decide

/-- C12, amended. For every record `flattenProposal` returns a row for: `budget_amount`
is the string form of the amount of the budget object whenever that is not `null` or
missing (so the amount 0 gives `"0"`), and of the proposal-level amount otherwise; each
of the four text columns is the value of the budget object whenever that value is truthy
(for a string: not empty), and otherwise, also when the budget object has the empty
string, the proposal-level value, or the empty string when that is absent. -/
theorem flattenProposal_budget_fallbacks (proposal : JsVal) (lastSyncedAt : String)
    (row : Row) (h : flattenProposal proposal lastSyncedAt = .ok row) :
    (∃ amount, row.lookup "budget_amount" = some amount ∧
      ((readPath proposal ["budget", "budgetAmount"]).nullish = false →
        normalizeNumber (readPath proposal ["budget", "budgetAmount"]) = .ok amount) ∧
      ((readPath proposal ["budget", "budgetAmount"]).nullish = true →
        normalizeNumber (readPath proposal ["budgetAmount"]) = .ok amount) ∧
      (readPath proposal ["budget", "budgetAmount"] = .json (.num 0) →
        amount = jsStr "0")) ∧
    (∀ column ∈ budgetTextFallbacks,
      ((readPath proposal ["budget", column.2.1]).truthy = true →
        row.lookup column.1 = some (readPath proposal ["budget", column.2.1])) ∧
      ((readPath proposal ["budget", column.2.1]).truthy = false →
        row.lookup column.1 = some (safeValue (readPath proposal [column.2.2])))) := by
  obtain ⟨yearValue, proposalTypes, result, reductionAmount, freezeAmount, historicalProposals,
    mergedProposals, meetings, proposers, coSigners, budgetAmount, hyear, _, _, _, _, _, _, _,
    _, _, hbudget, hrow⟩ := flattenProposal_shape h
  have hp := notNullish_of_yearValueOf hyear
  subst hrow
  constructor
  · refine ⟨budgetAmount, by simp [List.lookup], ?_, ?_, ?_⟩
    · intro hb
      rw [readPath_two hp] at hb ⊢
      simpa [jsCoalesce, hb] using hbudget
    · intro hb
      rw [readPath_two hp] at hb
      rw [readPath_one hp]
      simpa [jsCoalesce, hb] using hbudget
    · intro hb
      rw [readPath_two hp] at hb
      rw [hb] at hbudget
      simp [jsCoalesce, JsVal.nullish, normalizeNumber, JsVal.toStr, Json.toStr] at hbudget
      rw [← hbudget]
      rfl
  · intro column hcolumn
    have htruthy : ∀ v : JsVal, v.truthy = true → safeValue v = v := by
      intro v hv
      have : v.nullish = false := by
        cases hn : v.nullish
        · rfl
        · rw [truthy_false_of_nullish hn] at hv; cases hv
      simp [safeValue, this]
    simp only [budgetTextFallbacks, List.mem_cons, List.mem_singleton, List.not_mem_nil,
      or_false] at hcolumn
    rcases hcolumn with e | e | e | e <;> subst e <;>
      simp only [readPath_one hp, readPath_two hp] <;> constructor <;> intro ht <;>
      first
        | simp [List.lookup, jsOr, ht, htruthy _ ht]
        | simp [List.lookup, jsOr, ht]

/-- C12, instance: the sample record, whose budget object has the amount 0. -/
theorem flattenProposal_budget_fallbacks_witness :
    flattenProposal (.json sampleProposal) "2024-05-01T00:00:00.000Z" =
        .ok (sampleRow "2024-05-01T00:00:00.000Z") ∧
      readPath (.json sampleProposal) ["budget", "budgetAmount"] = .json (.num 0) ∧
      (sampleRow "2024-05-01T00:00:00.000Z").lookup "budget_amount" = some (jsStr "0") ∧
      ∀ column ∈ budgetTextFallbacks,
        ((readPath (.json sampleProposal) ["budget", column.2.1]).truthy = true →
          (sampleRow "2024-05-01T00:00:00.000Z").lookup column.1 =
            some (readPath (.json sampleProposal) ["budget", column.2.1])) ∧
        ((readPath (.json sampleProposal) ["budget", column.2.1]).truthy = false →
          (sampleRow "2024-05-01T00:00:00.000Z").lookup column.1 =
            some (safeValue (readPath (.json sampleProposal) [column.2.2]))) :=
  ⟨by decide, by decide, by decide,
    (flattenProposal_budget_fallbacks (.json sampleProposal) "2024-05-01T00:00:00.000Z"
      (sampleRow "2024-05-01T00:00:00.000Z") (by decide)).2⟩

theorem inheritedProp_not_label (key : String) : isNonBlankLabel (inheritedProp key) = false := by
  unfold inheritedProp
  split
  · rfl
  · split
    · rfl
    · split <;> rfl

theorem jsTrim_eq_empty_iff (s : String) :
    jsTrim s = "" ↔ ∀ c ∈ s.toList, isJsWhitespace c = true := by
  unfold jsTrim
  have hmk : ∀ l : List Char, String.mk l = "" ↔ l = [] := by
    intro l
    constructor
    · intro h
      have := congrArg String.data h
      simpa using this
    · intro h
      subst h
      rfl
  rw [hmk, List.reverse_eq_nil_iff, List.dropWhile_eq_nil_iff]
  constructor
  · intro h
    have h2 : List.dropWhile isJsWhitespace (List.dropWhile isJsWhitespace s.toList) = [] :=
      List.dropWhile_eq_nil_iff.2 (fun x hx => h x (List.mem_reverse.2 hx))
    rw [List.dropWhile_idempotent] at h2
    exact List.dropWhile_eq_nil_iff.1 h2
  · intro h x hx
    rw [List.dropWhile_eq_nil_iff.2 h] at hx
    simp at hx

theorem label_of_node (labelKey : String) (node : Option (List (String × Json))) :
    (specLabelOf labelKey node = none →
        isNonBlankLabel ((JsVal.json (nodeJson node)).optGet labelKey) = false) ∧
      (∀ s, specLabelOf labelKey node = some s →
        (JsVal.json (nodeJson node)).optGet labelKey = jsStr s ∧
          isNonBlankLabel (jsStr s) = true) := by
  cases node with
  | none => exact ⟨fun _ => rfl, fun s hs => by cases hs⟩
  | some fields =>
    have hopt : (JsVal.json (nodeJson (some fields))).optGet labelKey =
        (Json.obj fields).prop labelKey := rfl
    rw [hopt]
    simp only [Json.prop, specLabelOf]
    cases hl : fields.lookup labelKey with
    | none => exact ⟨fun _ => inheritedProp_not_label labelKey, fun s hs => by cases hs⟩
    | some v =>
      cases v with
      | str s =>
        by_cases hs : jsTrim s = ""
        · simp [isNonBlankLabel, hs]
        · simp [isNonBlankLabel, hs]
      | null => simp [isNonBlankLabel]
      | bool b => simp [isNonBlankLabel]
      | num n => simp [isNonBlankLabel]
      | arr a => simp [isNonBlankLabel]
      | obj o => simp [isNonBlankLabel]

theorem labels_filter_eq (nodes : List (Option (List (String × Json)))) (labelKey : String) :
    ((nodes.map nodeJson).map (fun node => (JsVal.json node).optGet labelKey)).filter
        isNonBlankLabel =
      (nodes.filterMap (specLabelOf labelKey)).map jsStr := by
  induction nodes with
  | nil => rfl
  | cons node rest ih =>
    rw [List.map_cons, List.map_cons, List.filter_cons, List.filterMap_cons, ih]
    obtain ⟨hnone, hsome⟩ := label_of_node labelKey node
    cases hspec : specLabelOf labelKey node with
    | none => simp [hnone hspec]
    | some s =>
      obtain ⟨h1, h2⟩ := hsome s hspec
      simp [h1, h2]

theorem formatLabelList_array (items : List Json) (labelKey : String) :
    formatLabelList (.json (.arr items)) labelKey =
      if items = [] then .ok ""
      else joinValues "|"
        ((items.map (fun node => (JsVal.json node).optGet labelKey)).filter isNonBlankLabel) := by
  cases items with
  | nil => rfl
  | cons item rest =>
    have hguard : (!(JsVal.json (.arr (item :: rest))).truthy ||
        !((JsVal.json (.arr (item :: rest))).prop "length").truthy) = false := by
      simp [JsVal.truthy, Json.truthy, JsVal.prop, Json.prop]
      omega
    unfold formatLabelList
    rw [hguard]
    simp

theorem optGet_jsonNode (item : Json) (labelKey : String)
    (hkey : labelKey = "displayName" ∨ labelKey = "name") :
    (JsVal.json item).optGet labelKey =
      (JsVal.json (nodeJson (jsonNode item))).optGet labelKey := by
  rcases hkey with h | h <;> subst h <;> cases item <;>
    simp [jsonNode, nodeJson, JsVal.optGet, JsVal.nullish, JsVal.prop, Json.prop]

theorem formatLabelList_call_sites (items : List Json) (labelKey : String)
    (hkey : labelKey = "displayName" ∨ labelKey = "name") :
    formatLabelList (.json (.arr items)) labelKey =
      .ok (specLabelList (items.map jsonNode) labelKey) := by
  rw [formatLabelList_array]
  by_cases hnil : items = []
  · subst hnil; rfl
  · rw [if_neg hnil]
    have hmap : items.map (fun node => (JsVal.json node).optGet labelKey) =
        ((items.map jsonNode).map nodeJson).map
          (fun node => (JsVal.json node).optGet labelKey) := by
      rw [List.map_map, List.map_map]
      apply List.map_congr_left
      intro item _
      exact optGet_jsonNode item labelKey hkey
    rw [hmap, labels_filter_eq, joinValues_strings]
    rfl

/-- C13. For every list of nodes, each an object or `null`, and every label key,
`formatLabelList` returns the labels of the nodes, in input order, joined with the bar,
keeping exactly the labels that are strings and are not blank after trimming: `null`
nodes, missing labels, labels that are not strings and labels of whitespace only are
skipped. For `null`, `undefined` and the empty list it returns the empty string. A string
is blank after trimming exactly when all its characters are white space. With the two
label keys the exporter passes, `displayName` and `name`, the same holds for a list of
arbitrary JSON values, an element that is not an object having no label. -/
theorem formatLabelList_spec (nodes : List (Option (List (String × Json))))
    (labelKey : String) :
    formatLabelList (.json (.arr (nodes.map nodeJson))) labelKey =
        .ok (specLabelList nodes labelKey) ∧
      formatLabelList (.json .null) labelKey = .ok "" ∧
      formatLabelList .undefined labelKey = .ok "" ∧
      formatLabelList (.json (.arr [])) labelKey = .ok "" ∧
      (∀ s : String, jsTrim s = "" ↔ ∀ c ∈ s.toList, isJsWhitespace c = true) ∧
      (∀ (items : List Json) (key : String), key = "displayName" ∨ key = "name" →
        formatLabelList (.json (.arr items)) key =
          .ok (specLabelList (items.map jsonNode) key)) := by
  refine ⟨?_, rfl, rfl, rfl, jsTrim_eq_empty_iff, formatLabelList_call_sites⟩
  cases nodes with
  | nil => rfl
  | cons node rest =>
    have hguard : (!(JsVal.json (.arr ((node :: rest).map nodeJson))).truthy ||
        !((JsVal.json (.arr ((node :: rest).map nodeJson))).prop "length").truthy) = false := by
      simp [JsVal.truthy, Json.truthy, JsVal.prop, Json.prop]
      omega
    unfold formatLabelList
    rw [hguard]
    simp only [Bool.false_eq_true, if_false]
    rw [labels_filter_eq, joinValues_strings]
    rfl

theorem mapE_length {α β : Type} (f : α → Except String β) :
    ∀ (xs : List α) (ys : List β), mapE f xs = .ok ys → ys.length = xs.length := by
  intro xs
  induction xs with
  | nil => intro ys h; cases h; rfl
  | cons x xs ih =>
    intro ys h
    unfold mapE at h
    cases hx : f x with
    | error e => simp [hx] at h
    | ok y =>
      cases hxs : mapE f xs with
      | error e => simp [hx, hxs] at h
      | ok zs =>
        simp only [hx, hxs, Except.ok.injEq] at h
        subst h
        simp [ih zs hxs]

theorem mapE_congr {α β : Type} (f g : α → Except String β) (xs : List α)
    (h : ∀ x ∈ xs, f x = g x) : mapE f xs = mapE g xs := by
  induction xs with
  | nil => rfl
  | cons x xs ih =>
    unfold mapE
    rw [h x (List.mem_cons_self _ _), ih (fun y hy => h y (List.mem_cons_of_mem _ hy))]

theorem mapE_map {α β γ : Type} (g : α → β) (f : β → Except String γ) (xs : List α) :
    mapE f (xs.map g) = mapE (fun x => f (g x)) xs := by
  induction xs with
  | nil => rfl
  | cons x xs ih =>
    simp only [List.map_cons, mapE, ih]

theorem mapE_ok_of_forall {α β : Type} (f : α → Except String β) (xs : List α)
    (h : ∀ x ∈ xs, ∃ y, f x = .ok y) : ∃ ys, mapE f xs = .ok ys := by
  induction xs with
  | nil => exact ⟨[], rfl⟩
  | cons x xs ih =>
    obtain ⟨y, hy⟩ := h x (List.mem_cons_self _ _)
    obtain ⟨ys, hys⟩ := ih (fun z hz => h z (List.mem_cons_of_mem _ hz))
    exact ⟨y :: ys, by simp only [mapE, hy, hys]⟩

theorem specIdSegment_ok_of_scalar (node : Json) (h : scalarId node = true) :
    ∃ seg, specIdSegment node = .ok seg := by
  unfold specIdSegment
  unfold scalarId at h
  split
  · cases hid : node.prop "id" with
    | undefined => exact ⟨_, rfl⟩
    | builtin name => exact ⟨_, rfl⟩
    | json j =>
      cases j with
      | null => exact ⟨_, rfl⟩
      | bool b => exact ⟨_, rfl⟩
      | num n => exact ⟨_, rfl⟩
      | str s => exact ⟨_, rfl⟩
      | arr a => simp [hid] at h
      | obj o => simp [hid] at h
  · exact ⟨_, rfl⟩

theorem intercalate_go_data (sep : String) (segments : List String) :
    ∀ acc : String, (String.intercalate.go acc sep segments).data =
      acc.data ++ (segments.map (fun seg => sep.data ++ seg.data)).flatten := by
  induction segments with
  | nil => intro acc; simp [String.intercalate.go]
  | cons seg rest ih =>
    intro acc
    rw [String.intercalate.go, ih]
    simp [String.data_append, List.append_assoc]

theorem countBars_intercalate (segment : String) (segments : List String)
    (hfree : ∀ seg ∈ segment :: segments, '|' ∉ seg.toList) :
    countBars (String.intercalate "|" (segment :: segments)) = segments.length := by
  unfold countBars
  have hdata : (String.intercalate "|" (segment :: segments)).toList =
      segment.data ++ (segments.map (fun seg => "|".data ++ seg.data)).flatten :=
    intercalate_go_data "|" segments segment
  have hfirst : List.count '|' segment.data = 0 :=
    List.count_eq_zero.2 (hfree segment (List.mem_cons_self _ _))
  rw [hdata, List.count_append, hfirst, Nat.zero_add]
  have hrest : ∀ seg ∈ segments, '|' ∉ seg.toList :=
    fun seg hseg => hfree seg (List.mem_cons_of_mem _ hseg)
  clear hdata hfree
  induction segments with
  | nil => rfl
  | cons seg rest ih =>
    have h0 : List.count '|' seg.data = 0 :=
      List.count_eq_zero.2 (hrest seg (List.mem_cons_self _ _))
    have h1 : List.count '|' "|".data = 1 := by decide
    simp only [List.map_cons, List.flatten_cons, List.count_append, List.length_cons, h0, h1,
      ih (fun s hs => hrest s (List.mem_cons_of_mem _ hs))]
    omega

theorem formatIdList_eq_spec (items : List Json) (hnonnull : ∀ item ∈ items, item ≠ .null) :
    formatIdList (.json (.arr items)) =
      match mapE specIdSegment items with
      | .ok segments => .ok (String.intercalate "|" segments)
      | .error e => .error e := by
  cases items with
  | nil => rfl
  | cons item rest =>
    have hguard : (!(JsVal.json (.arr (item :: rest))).truthy ||
        !((JsVal.json (.arr (item :: rest))).prop "length").truthy) = false := by
      simp [JsVal.truthy, Json.truthy, JsVal.prop, Json.prop]
      omega
    have hids : mapE relationIdOf (item :: rest) =
        .ok ((item :: rest).map (fun node => jsOr (node.prop "id") (jsStr ""))) := by
      have := mapE_map_ok (fun node : Json => node) relationIdOf
        (fun node => jsOr (node.prop "id") (jsStr "")) (item :: rest) (by
          intro node hnode
          have hn : (JsVal.json node).nullish = false := by
            have := hnonnull node hnode
            cases node <;> simp_all [JsVal.nullish]
          simp [relationIdOf, JsVal.get, hn, JsVal.prop])
      simpa using this
    unfold formatIdList
    rw [hguard]
    simp only [Bool.false_eq_true, if_false, hids]
    unfold joinValues
    rw [mapE_map]
    have hseg : mapE (fun node : Json =>
        if (jsOr (node.prop "id") (jsStr "")).nullish then Except.ok ""
        else (jsOr (node.prop "id") (jsStr "")).toStr) (item :: rest) =
        mapE specIdSegment (item :: rest) := by
      apply mapE_congr
      intro node _
      unfold specIdSegment jsOr
      cases ht : (node.prop "id").truthy
      · simp [JsVal.nullish, JsVal.toStr, Json.toStr]
      · have hn : (node.prop "id").nullish = false := by
          cases hn : (node.prop "id").nullish
          · rfl
          · rw [truthy_false_of_nullish hn] at ht; cases ht
        simp [hn]
    rw [hseg]
    cases mapE specIdSegment (item :: rest) <;> rfl

/-- C15. For every list of relation nodes none of which is `null`, `formatIdList` returns
the segments of the nodes joined with the bar in input order, where the segment of a node
is its id, and the empty segment when the id is missing or empty: a node is never
skipped. When the ids are scalars there are as many segments as nodes, hence one bar less
than nodes was inserted, and that is the number of bars of the result when no id holds a
bar itself. For `null`, `undefined` and the empty list the result is the empty string. -/
theorem formatIdList_spec (items : List Json) (hnonnull : ∀ item ∈ items, item ≠ .null) :
    (formatIdList (.json (.arr items)) =
      match mapE specIdSegment items with
      | .ok segments => .ok (String.intercalate "|" segments)
      | .error e => .error e) ∧
    ((∀ item ∈ items, scalarId item = true) →
      ∃ segments, segments.length = items.length ∧
        mapE specIdSegment items = .ok segments ∧
        formatIdList (.json (.arr items)) = .ok (String.intercalate "|" segments) ∧
        ((∀ seg ∈ segments, '|' ∉ seg.toList) →
          countBars (String.intercalate "|" segments) = items.length - 1)) ∧
    formatIdList (.json .null) = .ok "" ∧
    formatIdList .undefined = .ok "" ∧
    formatIdList (.json (.arr [])) = .ok "" := by
  refine ⟨formatIdList_eq_spec items hnonnull, ?_, rfl, rfl, rfl⟩
  intro hscalar
  obtain ⟨segments, hsegments⟩ := mapE_ok_of_forall specIdSegment items
    (fun item hitem => specIdSegment_ok_of_scalar item (hscalar item hitem))
  have hlen := mapE_length specIdSegment items segments hsegments
  refine ⟨segments, hlen, hsegments, ?_, ?_⟩
  · rw [formatIdList_eq_spec items hnonnull, hsegments]
  · intro hfree
    cases segments with
    | nil =>
      rw [← hlen]
      rfl
    | cons seg rest =>
      rw [countBars_intercalate seg rest hfree, ← hlen]
      simp

/-- C15, instance: three nodes with the ids `p-3`, none and the empty string give
`p-3||`, with two bars. -/
theorem formatIdList_spec_witness :
    (∀ item ∈ [Json.obj [("id", .str "p-3")], Json.obj [], Json.obj [("id", .str "")]],
        item ≠ Json.null) ∧
      formatIdList (.json (.arr [.obj [("id", .str "p-3")], .obj [], .obj [("id", .str "")]])) =
        .ok "p-3||" :=
  ⟨by decide,
    (formatIdList_spec [.obj [("id", .str "p-3")], .obj [], .obj [("id", .str "")]]
      (by decide)).1⟩

theorem writeBuckets_total (cfg : Config) (ts : String) (map : List (String × Bucket)) :
    ∀ cumulative : Nat, (writeBuckets cfg ts map cumulative).2 = cumulative + totalRows map := by
  induction map with
  | nil => intro c; simp [writeBuckets, totalRows]
  | cons entry rest ih =>
    intro c
    obtain ⟨k, b⟩ := entry
    simp only [writeBuckets, ih, totalRows, List.map_cons, List.sum_cons]
    omega

theorem yearKeys_length (lastSyncedAt : String) (records : List Json)
    (hflat : ∀ r ∈ records, flattens lastSyncedAt r = true) :
    (yearKeys records).length = records.length := by
  induction records with
  | nil => rfl
  | cons record rest ih =>
    obtain ⟨key, _, _, hkey, _, _⟩ :=
      processProposal_ok lastSyncedAt [] record (hflat record (List.mem_cons_self _ _))
    have hy : yearKeys (record :: rest) = key :: yearKeys rest := by
      simp [yearKeys, hkey]
    rw [hy, List.length_cons, List.length_cons,
      ih (fun r hr => hflat r (List.mem_cons_of_mem _ hr))]

theorem fetchLoop_buckets (cfg : Config) (server : Server) (ts : String)
    (trace0 trace : List Event) (s : LoopState)
    (hloop : fetchLoop cfg server ts cfg.maxRecords (initialState cfg) trace0 =
      some (.ok s, trace)) :
    processAll ts [] (consumedRecords cfg server cfg.maxRecords 0 cfg.maxRecords) =
        .ok s.buckets ∧
      s.processed = (consumedRecords cfg server cfg.maxRecords 0 cfg.maxRecords).length ∧
      s.remaining + (consumedRecords cfg server cfg.maxRecords 0 cfg.maxRecords).length =
        cfg.maxRecords ∧
      (bucketKeys s.buckets).Nodup ∧
      totalRows s.buckets =
        (consumedRecords cfg server cfg.maxRecords 0 cfg.maxRecords).length ∧
      (∀ k, k ∈ bucketKeys s.buckets ↔
        k ∈ yearKeys (consumedRecords cfg server cfg.maxRecords 0 cfg.maxRecords)) ∧
      BucketsKeyed s.buckets ∧
      (∀ r ∈ consumedRecords cfg server cfg.maxRecords 0 cfg.maxRecords,
        flattens ts r = true) := by
  obtain ⟨out, requests, hgen, _, _, hok⟩ :=
    fetchLoop_general cfg server ts cfg.maxRecords (initialState cfg) trace0 (Nat.le_refl _)
  rw [hloop] at hgen
  simp only [Option.some.injEq, Prod.mk.injEq] at hgen
  obtain ⟨hproc, hprocessed, hremaining⟩ := hok s hgen.1.symm
  simp only [initialState] at hproc hprocessed hremaining
  have hflat := processAll_flattens ts _ [] s.buckets hproc
  obtain ⟨map', hp, hnodup, htotal, _⟩ :=
    processAll_spec ts _ [] hflat (by simp [bucketKeys])
  rw [hproc] at hp
  cases hp
  refine ⟨hproc, by omega, hremaining, hnodup, ?_, ?_, ?_, hflat⟩
  · rw [htotal]; simp [totalRows]
  · intro k
    rw [processAll_keys ts _ [] s.buckets hproc k]
    simp [bucketKeys]
  · exact processAll_invariant ts BucketsKeyed (bucketsKeyed_step ts) _ [] s.buckets
      (fun entry hentry => by cases hentry) hproc

/-- C16. For every run of `exportProposals` that returns a summary counting at least one
bucket: `totalYears` is the number of buckets, which is the number of distinct year keys
among the records the fetch loop consumed; `totalRecords` is the sum of the row counts of
the buckets, which is the number of consumed records; every bucket has a row; and the
root metadata file is written with these two numbers. -/
theorem exportProposals_summary (cfg : Config) (server : Server) (lastSyncedAt : String)
    (summary : Summary) (trace : List Event)
    (hrun : exportProposals cfg server lastSyncedAt = some (.ok summary, trace))
    (hbuckets : 0 < summary.totalYears) :
    ∃ s looptrace,
      fetchLoop cfg server lastSyncedAt cfg.maxRecords (initialState cfg)
          [.countRequest, .mkdir cfg.outputRoot] = some (.ok s, looptrace) ∧
        summary.totalYears = s.buckets.length ∧
        summary.totalYears =
          (yearKeys (consumedRecords cfg server cfg.maxRecords 0 cfg.maxRecords)).toFinset.card ∧
        (yearKeys (consumedRecords cfg server cfg.maxRecords 0 cfg.maxRecords)).length =
          (consumedRecords cfg server cfg.maxRecords 0 cfg.maxRecords).length ∧
        summary.totalRecords = totalRows s.buckets ∧
        summary.totalRecords =
          (consumedRecords cfg server cfg.maxRecords 0 cfg.maxRecords).length ∧
        summary.totalRecords = s.processed ∧
        (∀ entry ∈ s.buckets, entry.2.rows ≠ []) ∧
        Event.writeFile cfg.outputRoot cfg.metadataFileName
          (.rootMetadata lastSyncedAt summary.totalYears summary.totalRecords cfg.maxRecords
            cfg.batchSize cfg.proposalWhere) ∈ trace := by
  unfold exportProposals at hrun
  cases hcount : server.count with
  | error e => simp [hcount] at hrun
  | ok total =>
    rw [hcount] at hrun
    dsimp only at hrun
    cases hloop : fetchLoop cfg server lastSyncedAt cfg.maxRecords (initialState cfg)
        [.countRequest, .mkdir cfg.outputRoot] with
    | none => simp [hloop] at hrun
    | some result =>
      obtain ⟨out, looptrace⟩ := result
      rw [hloop] at hrun
      cases out with
      | error e => simp at hrun
      | ok s =>
        dsimp only at hrun
        by_cases hempty : s.buckets.length = 0
        · rw [if_pos hempty] at hrun
          simp only [Option.some.injEq, Prod.mk.injEq, Except.ok.injEq] at hrun
          rw [← hrun.1] at hbuckets
          simp at hbuckets
        · rw [if_neg hempty] at hrun
          simp only [Option.some.injEq, Prod.mk.injEq, Except.ok.injEq] at hrun
          obtain ⟨hsummary, htrace⟩ := hrun
          obtain ⟨_, hprocessed, _, hnodup, htotal, hkeys, hkeyed, hflat⟩ :=
            fetchLoop_buckets cfg server lastSyncedAt _ _ s hloop
          have hrecords : summary.totalRecords = totalRows s.buckets := by
            rw [← hsummary]
            simp [writeBuckets_total]
          have hyears : summary.totalYears = s.buckets.length := by
            rw [← hsummary]
          refine ⟨s, looptrace, rfl, hyears, ?_, yearKeys_length lastSyncedAt _ hflat,
            hrecords, ?_, ?_, ?_, ?_⟩
          · have hset : (bucketKeys s.buckets).toFinset =
                (yearKeys (consumedRecords cfg server cfg.maxRecords 0
                  cfg.maxRecords)).toFinset := by
              ext k
              simp only [List.mem_toFinset]
              exact hkeys k
            rw [← hset, List.toFinset_card_of_nodup hnodup, hyears]
            simp [bucketKeys]
          · rw [hrecords, htotal]
          · rw [hrecords, htotal, hprocessed]
          · intro entry hentry
            exact (hkeyed entry hentry).2.1
          · rw [← htrace, hyears, hrecords]
            simp [writeRootMetadata, writeBuckets_total]

/-- C16, instance: batch size 2, cap 4, the five sample records: three years, four
records. -/
theorem exportProposals_summary_witness :
    ∃ summary trace,
      exportProposals (sampleConfig 2 4) (sliceServer sampleRecords)
          "2024-05-01T00:00:00.000Z" = some (.ok summary, trace) ∧
        0 < summary.totalYears ∧
        summary.totalYears = 3 ∧ summary.totalRecords = 4 ∧
        summary.totalYears =
          (yearKeys (consumedRecords (sampleConfig 2 4) (sliceServer sampleRecords) 4 0
            4)).toFinset.card ∧
        summary.totalRecords =
          (consumedRecords (sampleConfig 2 4) (sliceServer sampleRecords) 4 0 4).length := by
  have hsome : ∃ r,
      exportProposals (sampleConfig 2 4) (sliceServer sampleRecords)
        "2024-05-01T00:00:00.000Z" = some r ∧ summaryOf (some r) =
          some { lastSyncedAt := "2024-05-01T00:00:00.000Z", totalYears := 3,
                 totalRecords := 4 } := by
    have h : summaryOf (exportProposals (sampleConfig 2 4) (sliceServer sampleRecords)
        "2024-05-01T00:00:00.000Z") =
          some { lastSyncedAt := "2024-05-01T00:00:00.000Z", totalYears := 3,
                 totalRecords := 4 } := by decide
    cases hr : exportProposals (sampleConfig 2 4) (sliceServer sampleRecords)
        "2024-05-01T00:00:00.000Z" with
    | none => rw [hr] at h; cases h
    | some r => rw [hr] at h; exact ⟨r, rfl, h⟩
  obtain ⟨⟨out, trace⟩, hr, hs⟩ := hsome
  cases out with
  | error e => cases hs
  | ok summary =>
    simp only [summaryOf, Option.some.injEq] at hs
    have hpos : 0 < summary.totalYears := by rw [hs]; decide
    obtain ⟨s, looptrace, _, _, h3, _, _, h6, _⟩ :=
      exportProposals_summary (sampleConfig 2 4) (sliceServer sampleRecords)
        "2024-05-01T00:00:00.000Z" summary trace hr hpos
    exact ⟨summary, trace, hr, hpos, by rw [hs], by rw [hs], h3, h6⟩

/-- C18. For every server, every batch size and every cap, the fetch loop of
`exportProposals` ends within the `maxRecords` iterations it is given: it issues at most
`maxRecords` page requests and nothing else, and when it completes the rows of all
buckets together are the consumed records, at most `maxRecords` of them. What is
subtracted from `remaining` never exceeds it, so over the integers `remaining` is the
cap minus the records consumed, and is not negative. -/
theorem fetchLoop_bounded (cfg : Config) (server : Server) (lastSyncedAt : String)
    (trace0 : List Event) :
    ∃ out requests,
      fetchLoop cfg server lastSyncedAt cfg.maxRecords (initialState cfg) trace0 =
        some (out, trace0 ++ requests) ∧
      (∀ ev ∈ requests, ∃ skip, ev = Event.pageRequest cfg.batchSize skip) ∧
      requests.length ≤ cfg.maxRecords ∧
      (∀ s, out = .ok s →
        totalRows s.buckets = s.processed ∧
          totalRows s.buckets ≤ cfg.maxRecords ∧
          (s.remaining : Int) = (cfg.maxRecords : Int) - (s.processed : Int) ∧
          (0 : Int) ≤ (cfg.maxRecords : Int) - (s.processed : Int)) ∧
      (∀ (batch : List Json) (remaining : Nat),
        (batch.take (min batch.length remaining)).length ≤ remaining) := by
  obtain ⟨out, requests, hloop, hform, hbound, _⟩ :=
    fetchLoop_general cfg server lastSyncedAt cfg.maxRecords (initialState cfg) trace0
      (Nat.le_refl _)
  refine ⟨out, requests, hloop, hform, hbound, ?_, ?_⟩
  · intro s hs
    subst hs
    obtain ⟨_, hprocessed, hremaining, _, htotal, _, _, _⟩ :=
      fetchLoop_buckets cfg server lastSyncedAt trace0 _ s hloop
    refine ⟨by rw [htotal, hprocessed], by omega, by omega, by omega⟩
  · intro batch remaining
    rw [List.length_take]
    omega

end BudgetExport
